import Mathlib

/-!
Verification development for the live torrent session of rqbit,
`crates/librqbit/src/torrent_state/live/mod.rs`.

The data model and operations below are a shallow embedding of that file.
Machine integers are modelled as `Nat`, with explicit `% 2 ^ 64` wherever the
source relies on wrapping `u64` arithmetic, and with an `Option` result where
an unchecked `u64` subtraction can underflow.  I/O effects (disk writes,
channel sends, semaphore permits) are modelled as explicit state: event lists
and counters.  External collaborators that live in other crates or modules of
the repository (the chunk tracker, the peer-table helpers, lengths geometry,
the stats helpers) are modelled from the specification; every such definition
carries a doc comment starting with `Modelled from the spec:`.
-/

namespace Rqbit

/-- Peer socket addresses, abstracted to numbers (`SocketAddr` in the source). -/
abbrev Addr := Nat

/-- An entry of `inflight_pieces`: which peer a reserved piece is expected
from, and when the reservation started (`Instant` modelled as a millisecond
timestamp). Mirrors `struct InflightPiece` in the source. -/
structure InflightPiece where
  peer : Addr
  started : Nat
deriving DecidableEq, Repr

/-- Modelled from the spec: one wire-level chunk of a piece as tracked by the
external chunk tracker (`crate::chunk_tracker`, not part of this module):
whether its bytes have been downloaded, and its size in bytes. -/
structure CtChunk where
  downloaded : Bool
  size : Nat
deriving DecidableEq, Repr

/-- Modelled from the spec: the per-piece record of the external chunk
tracker: whether the piece is still queued (needed, not reserved), whether it
has been verified (`mark_piece_downloaded` ran), and its chunks. -/
structure CtPiece where
  queued : Bool
  verified : Bool
  chunks : List CtChunk
deriving DecidableEq, Repr

/-- A piece is complete when all of its chunks have been downloaded; this is
the condition under which `mark_chunk_downloaded` answers `Completed`. -/
def CtPiece.completed (p : CtPiece) : Bool :=
  p.chunks.all (·.downloaded)

/-- Bytes of a piece currently counted by the tracker's byte accounting: the
sizes of its downloaded chunks. -/
def CtPiece.dlBytes (p : CtPiece) : Nat :=
  (p.chunks.map (fun c => if c.downloaded then c.size else 0)).sum

/-- Modelled from the spec: the external `ChunkTracker`, a table of per-piece
records indexed by piece index. -/
structure ChunkTracker where
  pieces : List CtPiece
deriving DecidableEq, Repr

/-- Tracker query: piece `i` is needed (queued for download). -/
def ChunkTracker.needed (t : ChunkTracker) (i : Nat) : Bool :=
  match t.pieces.get? i with
  | some p => p.queued
  | none => false

/-- Tracker query: piece `i` is complete (all chunks downloaded). -/
def ChunkTracker.isCompleted (t : ChunkTracker) (i : Nat) : Bool :=
  match t.pieces.get? i with
  | some p => p.completed
  | none => false

/-- Tracker query: piece `i` is reserved, in the spec's words "not needed,
not completed"; only meaningful for in-range indices. -/
def ChunkTracker.reservedCt (t : ChunkTracker) (i : Nat) : Bool :=
  decide (i < t.pieces.length) && !(t.needed i) && !(t.isCompleted i)

/-- Modelled from the spec: `needed_piece_indices()` / `iter_needed_pieces` -
the queued piece indices in sequential order. -/
def ChunkTracker.iterNeededPieces (t : ChunkTracker) : List Nat :=
  (List.range t.pieces.length).filter (fun i => t.needed i)

/-- Modelled from the spec: `reserve_needed_piece(n)` clears the queued bit of
piece `n` (the chunk-level requested flags are not observable by any claim and
are not modelled). -/
def ChunkTracker.reserveNeededPiece (t : ChunkTracker) (n : Nat) : ChunkTracker :=
  match t.pieces.get? n with
  | some p => { pieces := t.pieces.set n { p with queued := false } }
  | none => t

/-- Result alphabet of `mark_chunk_downloaded`, mirroring
`ChunkMarkingResult` in `crate::chunk_tracker`. -/
inductive ChunkMarkingResult
  | completed
  | previouslyCompleted
  | notCompleted
deriving DecidableEq, Repr

/-- Modelled from the spec: `mark_chunk_downloaded(piece, chunk)` - answers
`PreviouslyCompleted` when the piece was already complete, otherwise marks the
chunk downloaded and answers `Completed` exactly when that made the piece
complete; an unmappable piece or chunk index answers `none` ("bogus data"). -/
def ChunkTracker.markChunkDownloaded (t : ChunkTracker) (piece chunk : Nat) :
    ChunkTracker × Option ChunkMarkingResult :=
  match t.pieces.get? piece with
  | none => (t, none)
  | some p =>
    match p.chunks.get? chunk with
    | none => (t, none)
    | some c =>
      if p.completed then (t, some .previouslyCompleted)
      else
        let p' := { p with chunks := p.chunks.set chunk { c with downloaded := true } }
        let t' : ChunkTracker := { pieces := t.pieces.set piece p' }
        if p'.completed then (t', some .completed) else (t', some .notCompleted)

/-- Modelled from the spec: `mark_piece_broken(n)` - the piece's chunks become
needed again: the queued bit is set, the verified bit and all downloaded
chunk bits are cleared. -/
def ChunkTracker.markPieceBroken (t : ChunkTracker) (n : Nat) : ChunkTracker :=
  match t.pieces.get? n with
  | some p =>
    { pieces := t.pieces.set n
        { queued := true, verified := false,
          chunks := p.chunks.map (fun c => { c with downloaded := false }) } }
  | none => t

/-- Modelled from the spec: `mark_piece_downloaded(n)` - post-verification
finalisation, records the piece as verified. -/
def ChunkTracker.markPieceDownloaded (t : ChunkTracker) (n : Nat) : ChunkTracker :=
  match t.pieces.get? n with
  | some p => { pieces := t.pieces.set n { p with verified := true } }
  | none => t

/-- Modelled from the spec: `cancel_chunk` / `mark_chunk_request_cancelled` -
re-marks the cancelled chunk as needed, which puts its piece back into the
needed set; per the spec, once the piece is complete the cancellation has no
effect. -/
def ChunkTracker.markChunkRequestCancelled (t : ChunkTracker) (piece _chunk : Nat) :
    ChunkTracker :=
  match t.pieces.get? piece with
  | some p => if p.completed then t else { pieces := t.pieces.set piece { p with queued := true } }
  | none => t

/-- Bytes of piece `i` currently counted by the tracker's byte accounting. -/
def ChunkTracker.pieceDlBytes (t : ChunkTracker) (i : Nat) : Nat :=
  match t.pieces.get? i with
  | some p => p.dlBytes
  | none => 0

/-- Modelled from the spec: `calc_have_bytes()` - the tracker's byte
accounting, summed over all pieces. -/
def ChunkTracker.calcHaveBytes (t : ChunkTracker) : Nat :=
  (t.pieces.map CtPiece.dlBytes).sum

/-- The `inflight_pieces` hash map, as an association list keyed by piece
index. -/
abbrev InflightMap := List (Nat × InflightPiece)

/-- `HashMap::get` on `inflight_pieces`. -/
def ipLookup (m : InflightMap) (k : Nat) : Option InflightPiece :=
  match m with
  | [] => none
  | kv :: tl => if kv.1 = k then some kv.2 else ipLookup tl k

/-- Whether the map holds an entry for key `k`. -/
def ipContains (m : InflightMap) (k : Nat) : Bool :=
  match m with
  | [] => false
  | kv :: tl => kv.1 = k || ipContains tl k

/-- Overwriting the entry of key `k` in place, leaving absent keys absent
(the `iter_mut` write of the steal path). -/
def ipOverwrite (m : InflightMap) (k : Nat) (v : InflightPiece) : InflightMap :=
  match m with
  | [] => []
  | kv :: tl => (if kv.1 = k then (k, v) else kv) :: ipOverwrite tl k v

/-- `HashMap::insert` on `inflight_pieces`: overwrites the entry for an
existing key, appends otherwise. -/
def ipInsert (m : InflightMap) (k : Nat) (v : InflightPiece) : InflightMap :=
  if ipContains m k then ipOverwrite m k v else m ++ [(k, v)]

/-- `HashMap::remove` on `inflight_pieces`. -/
def ipRemove (m : InflightMap) (k : Nat) : InflightMap :=
  match m with
  | [] => []
  | kv :: tl => if kv.1 = k then ipRemove tl k else kv :: ipRemove tl k

/-- `struct TorrentStateLocked`: the piece ledger guarded by the single
reader-writer lock - the chunk tracker (absent once paused), the inflight
reservations, and the one-shot fatal-error sender (absent once used, the
channel itself modelled as the presence token `Unit`). -/
structure TorrentStateLocked where
  chunks : Option ChunkTracker
  inflight_pieces : InflightMap
  fatal_errors_tx : Option Unit
deriving DecidableEq, Repr

/-! ### `on_fatal_error` (claim C8) -/

/-- `TorrentStateLive::on_fatal_error`: under one write-lock acquisition,
take `fatal_errors_tx` out of the ledger (error if already taken) and forward
the error value on the one-shot channel; the channel is modelled by the list
of values ever sent on it.  The function itself always ends in `Err` (first
call: the "fatal error" wrapper; later calls: "fatal_errors_tx already
taken"). -/
def onFatalError (e : Nat) (g : TorrentStateLocked) (sent : List Nat) :
    TorrentStateLocked × List Nat × Except String Unit :=
  match g.fatal_errors_tx with
  | some _ => ({ g with fatal_errors_tx := none }, sent ++ [e], .error "fatal error")
  | none => (g, sent, .error "fatal_errors_tx already taken")

/-! ### Speed-estimator tick (claim C9) -/

/-- `u64::wrapping_sub` on values already reduced modulo `2 ^ 64`. -/
def wrappingSub64 (a b : Nat) : Nat :=
  (a + 2 ^ 64 - b % 2 ^ 64) % 2 ^ 64

/-- Plain `u64` subtraction `a - b` as the source writes it: defined only
when it does not underflow (in a debug build an underflow aborts the thread;
in a release build it silently wraps - either way the claimed value
`min(needed - fetched, needed - downloaded)` is not computed). -/
def checkedSub64 (a b : Nat) : Option Nat :=
  if b ≤ a then some (a - b) else none

/-- The arithmetic of one 1-second tick of the `speed_estimator_updater`
task: `needed.wrapping_sub(fetched).min(needed - downloaded)` - the first
subtraction wrapping, the second unchecked. -/
def speedTickRemaining (needed fetched downloaded : Nat) : Option Nat :=
  match checkedSub64 needed downloaded with
  | some d => some (min (wrappingSub64 needed fetched) d)
  | none => none

/-- Modelled from the spec: the speed estimator's 5-sample ring; one tick
feeds `(fetched, remaining, now)` into it. -/
def ringPush (ring : List (Nat × Nat × Nat)) (sample : Nat × Nat × Nat) :
    List (Nat × Nat × Nat) :=
  (ring ++ [sample]).drop ((ring.length + 1) - 5)

/-- One full tick of the updater: compute `remaining` and feed the sample
into the ring; `none` models the tick aborting on arithmetic underflow. -/
def speedTick (needed fetched downloaded now : Nat)
    (ring : List (Nat × Nat × Nat)) : Option (List (Nat × Nat × Nat)) :=
  match speedTickRemaining needed fetched downloaded with
  | some remaining => some (ringPush ring (fetched, remaining, now))
  | none => none

/-! ### `task_manage_peer` permit accounting (claim C3) -/

/-- The per-peer states of the peer table (`PeerState` in the peer module). -/
inductive PeerState
  | queued
  | connecting
  | live
  | dead
  | notNeeded
deriving DecidableEq, Repr

/-- Observable events of one execution of `task_manage_peer`, in program
order. -/
inductive MpEvent
  | markedConnecting
  | permitsAdded (n : Nat)
  | ranOnPeerDied (withError : Bool)
deriving DecidableEq, Repr

/-- How many permits an execution returned to the global peer semaphore. -/
def countPermitsAdded (evs : List MpEvent) : Nat :=
  (evs.map (fun e => match e with | .permitsAdded n => n | _ => 0)).sum

/-- `TorrentStateLive::task_manage_peer(addr)`, by control flow:
`mark_peer_connecting(addr)?` (modelled from the spec: it requires the peer
entry to exist and be `Queued`, and errors otherwise - an early `return Err`
that skips the rest of the body), then the `select` of the requester and the
connection (its outcome is the parameter `runRes`), then
`peer_semaphore.add_permits(1)`, then `on_peer_died`.  The result is the
event list of the execution and the task's return value. -/
def taskManagePeer (st : Option PeerState) (runRes : Except String Unit) :
    List MpEvent × Except String Unit :=
  match st with
  | none => ([], .error "no peer entry to mark as connecting")
  | some ps =>
    if ps = PeerState.queued then
      ([MpEvent.markedConnecting, MpEvent.permitsAdded 1,
        MpEvent.ranOnPeerDied (match runRes with | .error _ => true | .ok _ => false)],
        .ok ())
    else ([], .error "peer was in wrong state to mark as connecting")

/-! ### Lengths geometry (modelled from the spec; `librqbit_core::lengths`) -/

/-- Modelled from the spec: the wire-level chunk size, 16 KiB. -/
def chunkSizeConst : Nat := 16384

/-- Modelled from the spec: `Lengths` - total length and piece length of the
torrent (the last piece may be shorter). -/
structure Lengths where
  totalLength : Nat
  pieceLength : Nat
deriving DecidableEq, Repr

/-- Number of pieces: total length divided by piece length, rounded up. -/
def Lengths.totalPieces (L : Lengths) : Nat :=
  (L.totalLength + L.pieceLength - 1) / L.pieceLength

/-- Length in bytes of piece `i` (the last piece is the remainder). -/
def Lengths.pieceLen (L : Lengths) (i : Nat) : Nat :=
  if i + 1 = L.totalPieces then L.totalLength - i * L.pieceLength else L.pieceLength

/-- A validated chunk: its piece, its chunk index within the piece, its byte
offset within the piece and its size (`ChunkInfo` in `librqbit_core`). -/
structure ChunkInfo where
  pieceIndex : Nat
  chunkIndex : Nat
  offset : Nat
  size : Nat
deriving DecidableEq, Repr

/-- Modelled from the spec: `chunk_info_from_received_piece(index, begin,
len)` - validates the piece index against the number of pieces and the
`begin`/`len` pair against the chunk grid of that piece. -/
def chunkInfoFromReceivedPiece (L : Lengths) (index begin_ len : Nat) :
    Option ChunkInfo :=
  if index < L.totalPieces ∧ begin_ % chunkSizeConst = 0 ∧ begin_ < L.pieceLen index ∧
      len = min chunkSizeConst (L.pieceLen index - begin_) then
    some { pieceIndex := index, chunkIndex := begin_ / chunkSizeConst,
           offset := begin_, size := len }
  else none

/-! ### Piece reception (`on_received_piece`, claims C1, C2, C6, C10) -/

/-- An outstanding chunk request of a live peer (`InflightRequest` in the
peer module: piece index and chunk index). -/
structure InflightRequest where
  piece : Nat
  chunk : Nat
deriving DecidableEq, Repr

/-- Per-peer atomic counters touched by the reception path
(`AtomicPeerCounters`). -/
structure PeerCounters where
  fetched_bytes : Nat
  fetched_chunks : Nat
  downloaded_and_checked_bytes : Nat
  downloaded_and_checked_pieces : Nat
  errors : Nat
deriving DecidableEq, Repr

/-- Global atomic counters (`AtomicStats`). -/
structure GlobalStats where
  have_bytes : Nat
  downloaded_and_checked_bytes : Nat
  downloaded_and_checked_pieces : Nat
  fetched_bytes : Nat
  uploaded_bytes : Nat
  total_piece_download_ms : Nat
deriving DecidableEq, Repr

/-- The state a call of `on_received_piece` can read or write: the ledger,
the global and per-peer counters, the per-peer request semaphore's permit
count, the peer's outstanding-request set, the values forwarded on the fatal
one-shot, and the log of chunk writes that reached the disk, each tagged
with the writing peer. -/
structure RecvState where
  locked : TorrentStateLocked
  stats : GlobalStats
  counters : PeerCounters
  requestsSemPermits : Nat
  inflightRequests : List InflightRequest
  fatalSent : List Nat
  diskWrites : List (Addr × Nat × Nat)
deriving DecidableEq, Repr

/-- Outcome of the section of `on_received_piece` that runs under the
ledger's write lock (`lock_write("mark_chunk_downloaded")`). -/
inductive LockedRecvResult
  | stolen
  | missing
  | trackerGone
  | completedNow (elapsedMs : Nat)
  | previouslyCompleted
  | notCompleted
  | bogus
deriving DecidableEq, Repr

/-- The write-locked section of `on_received_piece`: first the ownership
check against `inflight_pieces` (owned by someone else - `stolen`; absent -
`missing`), then `mark_chunk_downloaded`; on `Completed` the inflight entry
is popped under the same lock acquisition and the elapsed reservation time
captured. -/
def lockedRecv (self : Addr) (now : Nat) (piece chunk : Nat)
    (g : TorrentStateLocked) : TorrentStateLocked × LockedRecvResult :=
  match ipLookup g.inflight_pieces piece with
  | none => (g, .missing)
  | some ip =>
    if ip.peer = self then
      match g.chunks with
      | none => (g, .trackerGone)
      | some t =>
        match t.markChunkDownloaded piece chunk with
        | (t', some .completed) =>
          ({ g with
              chunks := some t'
              inflight_pieces := ipRemove g.inflight_pieces piece },
            .completedNow (now - ip.started))
        | (t', some .previouslyCompleted) =>
          ({ g with chunks := some t' }, .previouslyCompleted)
        | (t', some .notCompleted) =>
          ({ g with chunks := some t' }, .notCompleted)
        | (_, none) => (g, .bogus)
    else (g, .stolen)

/-- The blocking-I/O stage of `on_received_piece`: write the chunk to disk
(a failure, `diskOk = false`, is fatal and routed through `on_fatal_error`;
the I/O error value is modelled as the code 0), then, when the piece just
completed, verify its SHA-1 (`hashOk` is the verdict of the external
`check_piece`): on success `mark_piece_downloaded` plus the global and
per-peer counter updates, on failure `mark_piece_broken`.  The finished
notification, peer disconnects, read-only reopen, backoff reset and Have
fan-out are I/O outside the ledger and are not modelled. -/
def recvDiskStage (L : Lengths) (self : Addr) (ci : ChunkInfo)
    (fullPieceDownloadTime : Option Nat) (diskOk hashOk : Bool)
    (s : RecvState) : RecvState × Except String Unit :=
  if diskOk then
    let s1 := { s with diskWrites := s.diskWrites ++ [(self, ci.pieceIndex, ci.chunkIndex)] }
    match fullPieceDownloadTime with
    | none => (s1, .ok ())
    | some elapsedMs =>
      match s1.locked.chunks with
      | none => (s1, .error "chunk tracker empty, torrent was paused")
      | some t =>
        if hashOk then
          let pieceLen := L.pieceLen ci.pieceIndex
          ({ s1 with
              locked := { s1.locked with chunks := some (t.markPieceDownloaded ci.pieceIndex) }
              stats := { s1.stats with
                downloaded_and_checked_bytes := s1.stats.downloaded_and_checked_bytes + pieceLen
                downloaded_and_checked_pieces := s1.stats.downloaded_and_checked_pieces + 1
                have_bytes := s1.stats.have_bytes + pieceLen
                total_piece_download_ms := s1.stats.total_piece_download_ms + elapsedMs }
              counters := { s1.counters with
                downloaded_and_checked_pieces := s1.counters.downloaded_and_checked_pieces + 1
                downloaded_and_checked_bytes := s1.counters.downloaded_and_checked_bytes + pieceLen } },
            .ok ())
        else
          ({ s1 with
              locked := { s1.locked with chunks := some (t.markPieceBroken ci.pieceIndex) } },
            .ok ())
  else
    let r := onFatalError 0 s.locked s.fatalSent
    ({ s with locked := r.1, fatalSent := r.2.1 }, r.2.2)

/-- The `Piece` wire message as received: piece index, byte offset within the
piece, and the length of the data block (the block's bytes themselves only
matter to the disk and hash stages and are not modelled). -/
structure PieceMsg where
  index : Nat
  begin_ : Nat
  blockLen : Nat
deriving DecidableEq, Repr

/-- `PeerHandler::on_received_piece`, by control flow: validate the message
against the lengths (failure is an error before any side effect); release one
permit into the per-peer request semaphore and bump the per-peer and global
fetched counters; remove the matching `InflightRequest` (an unsolicited chunk
is an error, with no rollback of those effects); then the write-locked
section; then, unless the call returned early, the blocking disk-and-verify
stage. -/
def onReceivedPiece (L : Lengths) (self : Addr) (now : Nat) (diskOk hashOk : Bool)
    (msg : PieceMsg) (s : RecvState) : RecvState × Except String Unit :=
  match chunkInfoFromReceivedPiece L msg.index msg.begin_ msg.blockLen with
  | none => (s, .error "peer sent us an invalid piece")
  | some ci =>
    let s1 : RecvState :=
      { s with
        requestsSemPermits := s.requestsSemPermits + 1
        counters := { s.counters with
          fetched_bytes := s.counters.fetched_bytes + msg.blockLen
          fetched_chunks := s.counters.fetched_chunks + 1 }
        stats := { s.stats with fetched_bytes := s.stats.fetched_bytes + msg.blockLen } }
    let req : InflightRequest := { piece := ci.pieceIndex, chunk := ci.chunkIndex }
    if req ∈ s1.inflightRequests then
      let s2 := { s1 with inflightRequests := s1.inflightRequests.filter (fun r => r ≠ req) }
      let g' := lockedRecv self now ci.pieceIndex ci.chunkIndex s2.locked
      let s3 := { s2 with locked := g'.1 }
      match g'.2 with
      | .stolen => (s3, .ok ())
      | .missing => (s3, .ok ())
      | .trackerGone => (s3, .error "chunk tracker empty, torrent was paused")
      | .previouslyCompleted => (s3, .ok ())
      | .bogus => (s3, .error "bogus data received, cannot map this to a chunk")
      | .notCompleted => recvDiskStage L self ci none diskOk hashOk s3
      | .completedNow e => recvDiskStage L self ci (some e) diskOk hashOk s3
    else
      (s1, .error "peer sent us a piece we did not ask")

/-! ### Piece selection (claims C4, C7) -/

/-- Modelled from the spec: `average_piece_download_time` from the stats
module - `total_piece_download_ms / downloaded_and_checked_pieces`, absent
while no piece has been verified; the `f64` arithmetic of the source is
modelled exactly over the rationals. -/
def averagePieceDownloadTime (stats : GlobalStats) : Option ℚ :=
  if stats.downloaded_and_checked_pieces = 0 then none
  else some ((stats.total_piece_download_ms : ℚ) / (stats.downloaded_and_checked_pieces : ℚ))

/-- One step of the `max_by_key` scan over inflight entries: keep the entry
whose elapsed time (`now` minus its start) is largest, preferring the later
of two equals as `max_by_key` does. -/
def mexStep (now : Nat) (acc : Option (Nat × Nat)) (kv : Nat × InflightPiece) :
    Option (Nat × Nat) :=
  match acc with
  | none => some (kv.1, now - kv.2.started)
  | some best =>
    if now - kv.2.started ≥ best.2 then some (kv.1, now - kv.2.started) else some best

/-- The `iter_mut ... filter ... max_by_key` of `try_steal_old_slow_piece`:
among the inflight entries owned by a peer other than `self`, the key and
elapsed time of an entry with maximal elapsed time. -/
def maxElapsedEntry (self : Addr) (now : Nat) (m : InflightMap) :
    Option (Nat × Nat) :=
  (m.filter (fun kv => kv.2.peer ≠ self)).foldl (mexStep now) none

/-- `PeerHandler::try_steal_old_slow_piece(threshold)`: nothing unless at
least 20 pieces are verified globally; compute the average piece download
time; pick the other-owned inflight entry with the greatest elapsed time; if
its elapsed time strictly exceeds `threshold` times the average, overwrite
the entry with `{peer: self, started: now}` and return its piece. -/
def tryStealOldSlowPiece (self : Addr) (now : Nat) (stats : GlobalStats)
    (threshold : ℚ) (g : TorrentStateLocked) : TorrentStateLocked × Option Nat :=
  if stats.downloaded_and_checked_pieces < 20 then (g, none)
  else
    match averagePieceDownloadTime stats with
    | none => (g, none)
    | some avg =>
      match maxElapsedEntry self now g.inflight_pieces with
      | none => (g, none)
      | some (idx, elapsed) =>
        if (elapsed : ℚ) > avg * threshold then
          ({ g with inflight_pieces :=
              ipOverwrite g.inflight_pieces idx { peer := self, started := now } },
            some idx)
        else (g, none)

/-- `PeerHandler::reserve_next_needed_piece`: nothing while choked; under the
ledger's write lock, find the first needed piece present in the peer's
bitfield (none found is the `"invalid n_opt"` error of the source), insert
`{peer: self, started: now}` into `inflight_pieces` and reserve the piece in
the tracker under that same lock acquisition. -/
def reserveNextNeededPiece (choked : Bool) (bf : List Bool) (self : Addr)
    (now : Nat) (g : TorrentStateLocked) :
    TorrentStateLocked × Except String (Option Nat) :=
  if choked then (g, .ok none)
  else
    match g.chunks with
    | none => (g, .error "chunk tracker empty, torrent was paused")
    | some t =>
      match (t.iterNeededPieces.filter (fun n => bf.get? n = some true)).head? with
      | none => (g, .error "invalid n_opt")
      | some n =>
        ({ g with
            inflight_pieces := ipInsert g.inflight_pieces n { peer := self, started := now }
            chunks := some (t.reserveNeededPiece n) },
          .ok (some n))

/-- The three-tier selection of `task_peer_chunk_requester`:
`try_steal_old_slow_piece(10.)`, else `reserve_next_needed_piece().ok().flatten()`
(an error of the reserve step counts as no piece), else
`try_steal_old_slow_piece(2.)`. -/
def selectPiece (choked : Bool) (bf : List Bool) (self : Addr) (now : Nat)
    (stats : GlobalStats) (g : TorrentStateLocked) :
    TorrentStateLocked × Option Nat :=
  match tryStealOldSlowPiece self now stats 10 g with
  | (g1, some p) => (g1, some p)
  | (g1, none) =>
    match reserveNextNeededPiece choked bf self now g1 with
    | (g2, .ok (some p)) => (g2, some p)
    | (g2, .ok none) => tryStealOldSlowPiece self now stats 2 g2
    | (g2, .error _) => tryStealOldSlowPiece self now stats 2 g2

/-- One selection round of the requester loop: pick a piece through the
three tiers, then record the chosen piece in `previously_requested_pieces`
(the selection itself never reads that bitfield). -/
def requesterChooseOnce (choked : Bool) (bf prev : List Bool) (self : Addr)
    (now : Nat) (stats : GlobalStats) (g : TorrentStateLocked) :
    TorrentStateLocked × List Bool × Option Nat :=
  match selectPiece choked bf self now stats g with
  | (g1, some n) => (g1, prev.set n true, some n)
  | (g1, none) => (g1, prev, none)

/-! ### `pause` (claim C5) -/

/-- A file slot: either a real handle or the null-device sentinel that
`dummy_file()` opens. -/
inductive FileHandle
  | real (id : Nat)
  | devnull
deriving DecidableEq, Repr

/-- The paused snapshot (`TorrentStatePaused`): the moved-out file handles,
the moved-out chunk tracker, and the recomputed have-bytes. -/
structure TorrentStatePaused where
  files : List FileHandle
  chunk_tracker : ChunkTracker
  have_bytes : Nat
deriving DecidableEq, Repr

/-- `TorrentStateLive::pause`: broadcast cancellation (I/O, not modelled);
under the write lock move every file handle out, replacing it with the
null-device sentinel; take the chunk tracker out (error if already absent);
mark every piece currently in `inflight_pieces` broken; recompute
`have_bytes`; return the snapshot.  The result is the post-pause ledger, the
post-pause live file slots, and the snapshot or the error. -/
def pause (g : TorrentStateLocked) (files : List FileHandle) :
    TorrentStateLocked × List FileHandle × Except String TorrentStatePaused :=
  let newFiles := files.map (fun _ => FileHandle.devnull)
  match g.chunks with
  | none => (g, newFiles, .error "bug: pausing already paused torrent")
  | some t =>
    let t1 := (g.inflight_pieces.map (fun kv => kv.1)).foldl
      (fun acc k => acc.markPieceBroken k) t
    ({ g with chunks := none }, newFiles,
      .ok { files := files, chunk_tracker := t1, have_bytes := t1.calcHaveBytes })

/-! ### Reachable ledger states (claim C1) -/

/-- The ledger as `TorrentStateLive::new` builds it from a paused snapshot:
the snapshot's tracker, no inflight reservations, the fatal one-shot in
place. -/
def initialLocked (t : ChunkTracker) : TorrentStateLocked :=
  { chunks := some t, inflight_pieces := [], fatal_errors_tx := some () }

/-- A tracker as it comes out of a paused snapshot: every piece is either
still queued for download or fully downloaded - `pause` marks every
partially-downloaded piece broken before the snapshot is taken, so a
reserved (neither-needed-nor-completed) piece cannot be restored. -/
def ChunkTracker.freshOk (t : ChunkTracker) : Bool :=
  t.pieces.all (fun p => p.queued || p.completed)

/-- Ledger states reachable through the session's write-locked operations:
construction from a snapshot, piece reservation, piece stealing, the locked
section of chunk reception, post-verification finalisation
(`mark_piece_downloaded` / `mark_piece_broken`), the chunk-request
cancellation loop of `on_peer_died`, the fatal-error path, and `pause`. -/
inductive Reach : TorrentStateLocked → Prop
  | init (t : ChunkTracker) (h : t.freshOk = true) : Reach (initialLocked t)
  | reserve (g : TorrentStateLocked) (choked : Bool) (bf : List Bool) (self : Addr)
      (now : Nat) (hg : Reach g) :
      Reach (reserveNextNeededPiece choked bf self now g).1
  | steal (g : TorrentStateLocked) (self : Addr) (now : Nat) (stats : GlobalStats)
      (threshold : ℚ) (hg : Reach g) :
      Reach (tryStealOldSlowPiece self now stats threshold g).1
  | recv (g : TorrentStateLocked) (self : Addr) (now : Nat) (piece chunk : Nat)
      (hg : Reach g) :
      Reach (lockedRecv self now piece chunk g).1
  | pieceDownloaded (g : TorrentStateLocked) (p : Nat) (hg : Reach g) :
      Reach { g with chunks := g.chunks.map (fun t => t.markPieceDownloaded p) }
  | pieceBroken (g : TorrentStateLocked) (p : Nat) (hg : Reach g) :
      Reach { g with chunks := g.chunks.map (fun t => t.markPieceBroken p) }
  | cancelAll (g : TorrentStateLocked) (reqs : List InflightRequest) (hg : Reach g) :
      Reach { g with chunks := g.chunks.map (fun t =>
        reqs.foldl (fun acc r => acc.markChunkRequestCancelled r.piece r.chunk) t) }
  | fatal (g : TorrentStateLocked) (e : Nat) (sent : List Nat) (hg : Reach g) :
      Reach (onFatalError e g sent).1
  | paused (g : TorrentStateLocked) (files : List FileHandle) (hg : Reach g) :
      Reach (pause g files).1

/-- Whether the ledger's tracker currently has piece `i` reserved. -/
def ledgerReserved (g : TorrentStateLocked) (i : Nat) : Bool :=
  match g.chunks with
  | some t => t.reservedCt i
  | none => false

/-! ## Theorems -/

/-! ### Association-list helper lemmas -/

theorem ipLookup_append (m m' : InflightMap) (k : Nat) :
    ipLookup (m ++ m') k = (ipLookup m k).or (ipLookup m' k) := by
  induction m with
  | nil => simp [ipLookup]
  | cons kv tl ih =>
    by_cases hk : kv.1 = k
    · simp [ipLookup, hk]
    · simp [ipLookup, hk, ih]

theorem ipLookup_eq_none_of_not_contains (m : InflightMap) (k : Nat)
    (h : ipContains m k = false) : ipLookup m k = none := by
  induction m with
  | nil => rfl
  | cons kv tl ih =>
    simp only [ipContains, Bool.or_eq_false_iff, decide_eq_false_iff_not] at h
    simp only [ipLookup, if_neg h.1]
    exact ih h.2

theorem ipLookup_overwrite_ne (m : InflightMap) (k k' : Nat) (v : InflightPiece)
    (h : k' ≠ k) : ipLookup (ipOverwrite m k v) k' = ipLookup m k' := by
  induction m with
  | nil => rfl
  | cons kv tl ih =>
    simp only [ipOverwrite, ipLookup]
    by_cases hk : kv.1 = k
    · have h1 : ((k, v) : Nat × InflightPiece).1 ≠ k' := Ne.symm h
      have h2 : kv.1 ≠ k' := by rw [hk]; exact Ne.symm h
      rw [if_pos hk, if_neg h1, if_neg h2]
      exact ih
    · rw [if_neg hk]
      by_cases hk' : kv.1 = k'
      · rw [if_pos hk', if_pos hk']
      · rw [if_neg hk', if_neg hk']
        exact ih

theorem ipLookup_overwrite_self_isSome (m : InflightMap) (k : Nat)
    (v : InflightPiece) :
    (ipLookup (ipOverwrite m k v) k).isSome = (ipLookup m k).isSome := by
  induction m with
  | nil => rfl
  | cons kv tl ih =>
    simp only [ipOverwrite, ipLookup]
    by_cases hk : kv.1 = k
    · rw [if_pos hk, if_pos hk, if_pos (rfl : ((k, v) : Nat × InflightPiece).1 = k)]
      rfl
    · rw [if_neg hk, if_neg hk, if_neg hk]
      exact ih

theorem ipLookup_overwrite_self_of_contains (m : InflightMap) (k : Nat)
    (v : InflightPiece) (h : ipContains m k = true) :
    ipLookup (ipOverwrite m k v) k = some v := by
  induction m with
  | nil => simp [ipContains] at h
  | cons kv tl ih =>
    simp only [ipOverwrite, ipLookup]
    by_cases hk : kv.1 = k
    · rw [if_pos hk, if_pos (rfl : ((k, v) : Nat × InflightPiece).1 = k)]
    · rw [if_neg hk, if_neg hk]
      simp only [ipContains, Bool.or_eq_true, decide_eq_true_eq] at h
      rcases h with h | h
      · exact absurd h hk
      · exact ih h

theorem ipLookup_insert_self (m : InflightMap) (k : Nat) (v : InflightPiece) :
    ipLookup (ipInsert m k v) k = some v := by
  unfold ipInsert
  split
  · next hc => exact ipLookup_overwrite_self_of_contains m k v hc
  · next hc =>
    rw [ipLookup_append,
      ipLookup_eq_none_of_not_contains m k (Bool.of_not_eq_true hc)]
    simp [ipLookup]

theorem ipLookup_insert_ne (m : InflightMap) (k k' : Nat) (v : InflightPiece)
    (h : k' ≠ k) : ipLookup (ipInsert m k v) k' = ipLookup m k' := by
  unfold ipInsert
  split
  · exact ipLookup_overwrite_ne m k k' v h
  · rw [ipLookup_append]
    have h1 : ipLookup [(k, v)] k' = none := by
      simp only [ipLookup]
      rw [if_neg (Ne.symm h : ((k, v) : Nat × InflightPiece).1 ≠ k')]
    rw [h1]
    cases ipLookup m k' <;> rfl

theorem ipLookup_remove_self (m : InflightMap) (k : Nat) :
    ipLookup (ipRemove m k) k = none := by
  induction m with
  | nil => rfl
  | cons kv tl ih =>
    simp only [ipRemove]
    by_cases hk : kv.1 = k
    · rw [if_pos hk]
      exact ih
    · rw [if_neg hk]
      simp only [ipLookup, if_neg hk]
      exact ih

theorem ipLookup_remove_ne (m : InflightMap) (k k' : Nat) (h : k' ≠ k) :
    ipLookup (ipRemove m k) k' = ipLookup m k' := by
  induction m with
  | nil => rfl
  | cons kv tl ih =>
    simp only [ipRemove]
    by_cases hk : kv.1 = k
    · have h2 : kv.1 ≠ k' := by rw [hk]; exact Ne.symm h
      rw [if_pos hk]
      simp only [ipLookup, if_neg h2]
      exact ih
    · rw [if_neg hk]
      by_cases hk' : kv.1 = k'
      · simp only [ipLookup, if_pos hk']
      · simp only [ipLookup, if_neg hk']
        exact ih

/-! ### Claim C8: fatal-error latching -/

/-- C8: the first call of `on_fatal_error` - one on a ledger still holding
`fatal_errors_tx` - takes the sender out under the single write-lock
acquisition and forwards the error on the one-shot channel; any call on a
ledger whose sender is already gone changes nothing and sends nothing. -/
theorem c8_fatal_error_latching (e : Nat) (g : TorrentStateLocked) (sent : List Nat) :
    (g.fatal_errors_tx = some () →
      (onFatalError e g sent).1 = { g with fatal_errors_tx := none } ∧
      (onFatalError e g sent).2.1 = sent ++ [e]) ∧
    (g.fatal_errors_tx = none →
      (onFatalError e g sent).1 = g ∧ (onFatalError e g sent).2.1 = sent) := by
  constructor <;> intro h <;> simp [onFatalError, h]

theorem c8_fatal_error_latching_witness :
    (onFatalError 7 { chunks := none, inflight_pieces := [], fatal_errors_tx := some () }
        []).2.1 = [7] ∧
    (onFatalError 8 { chunks := none, inflight_pieces := [], fatal_errors_tx := none }
        [7]).2.1 = [7] :=
  ⟨((c8_fatal_error_latching 7
      { chunks := none, inflight_pieces := [], fatal_errors_tx := some () } []).1 rfl).2,
    ((c8_fatal_error_latching 8
      { chunks := none, inflight_pieces := [], fatal_errors_tx := none } [7]).2 rfl).2⟩

/-! ### Claim C9: speed-estimator tick arithmetic -/

/-- C9 counterexample: the tick is not underflow-free for arbitrary counter
values - when `downloaded_and_checked` exceeds `initially_needed` (here 1
against 0) the second subtraction, written as a plain `u64` subtraction,
underflows and the claimed value is not computed. -/
theorem c9_counterexample : speedTickRemaining 0 0 1 = none := by decide

/-- C9 amended: only the `fetched` subtraction is wrapping.  Whenever
`downloaded_and_checked ≤ initially_needed` (which the session's accounting
maintains) the tick is underflow-free and computes
`min(wrapping_sub(needed, fetched), needed - downloaded)` - in particular a
`fetched` that transiently exceeds `needed` is safe - and feeds
`(fetched, remaining, now)` into the estimator's 5-sample ring. -/
theorem c9_speed_tick_amended (needed fetched downloaded now : Nat)
    (ring : List (Nat × Nat × Nat)) (h : downloaded ≤ needed) :
    speedTickRemaining needed fetched downloaded =
      some (min (wrappingSub64 needed fetched) (needed - downloaded)) ∧
    speedTick needed fetched downloaded now ring =
      some (ringPush ring
        (fetched, min (wrappingSub64 needed fetched) (needed - downloaded), now)) := by
  constructor <;> simp [speedTick, speedTickRemaining, checkedSub64, h]

theorem c9_speed_tick_amended_witness :
    speedTickRemaining 10 25 3 = some (min (wrappingSub64 10 25) 7) :=
  (c9_speed_tick_amended 10 25 3 0 [] (by decide)).1

/-! ### Claim C3: peer-semaphore permit accounting -/

/-- C3 counterexample: an execution of `task_manage_peer` whose setup fails -
here `mark_peer_connecting` finds the peer in state `Dead` rather than
`Queued` - returns early with an error and never reaches `add_permits(1)`:
the permit consumed by the peer adder is dropped, against the claim that
every execution returns it exactly once. -/
theorem c3_counterexample :
    countPermitsAdded (taskManagePeer (some PeerState.dead) (Except.ok ())).1 = 0 ∧
    (taskManagePeer (some PeerState.dead) (Except.ok ())).2 =
      Except.error "peer was in wrong state to mark as connecting" := by
  constructor <;> rfl

/-- C3 amended: `task_manage_peer` returns the global peer-semaphore permit
via `add_permits(1)` exactly once whenever the task setup succeeds (the peer
entry exists and is `Queued`), whatever the outcome of the managed
connection; when setup fails - `mark_peer_connecting` errors - the body
returns before the single `add_permits(1)` site and the permit is not
returned at all. -/
theorem c3_permit_accounting_amended (st : Option PeerState)
    (runRes : Except String Unit) :
    countPermitsAdded (taskManagePeer st runRes).1 =
      (if st = some PeerState.queued then 1 else 0) := by
  cases st with
  | none => rfl
  | some ps => cases ps <;> cases runRes <;> rfl

/-! ### Claim C10: side effects of an unsolicited chunk survive the error -/

/-- C10: a call of `on_received_piece` with a well-formed chunk that the peer
has no outstanding request for still releases one permit into the per-peer
request semaphore and bumps the per-peer `fetched_bytes`/`fetched_chunks`
and the global `fetched_bytes` counters, and only then fails with the
"piece we did not ask" error that kills the peer; the final state keeps
those effects - nothing is rolled back - and nothing else changed. -/
theorem c10_unsolicited_chunk_side_effects (L : Lengths) (self : Addr) (now : Nat)
    (diskOk hashOk : Bool) (msg : PieceMsg) (s : RecvState) (ci : ChunkInfo)
    (hv : chunkInfoFromReceivedPiece L msg.index msg.begin_ msg.blockLen = some ci)
    (hn : ({ piece := ci.pieceIndex, chunk := ci.chunkIndex } : InflightRequest) ∉
      s.inflightRequests) :
    (onReceivedPiece L self now diskOk hashOk msg s).2 =
      Except.error "peer sent us a piece we did not ask" ∧
    (onReceivedPiece L self now diskOk hashOk msg s).1 =
      { s with
        requestsSemPermits := s.requestsSemPermits + 1
        counters := { s.counters with
          fetched_bytes := s.counters.fetched_bytes + msg.blockLen
          fetched_chunks := s.counters.fetched_chunks + 1 }
        stats := { s.stats with
          fetched_bytes := s.stats.fetched_bytes + msg.blockLen } } := by
  unfold onReceivedPiece
  rw [hv]
  refine ⟨?_, ?_⟩ <;> simp only [if_neg hn]

theorem c10_unsolicited_chunk_side_effects_witness :
    (onReceivedPiece ⟨16384, 16384⟩ 5 0 true true ⟨0, 0, 16384⟩
        ⟨⟨some ⟨[⟨true, false, [⟨false, 16384⟩]⟩]⟩, [], some ()⟩,
          ⟨0, 0, 0, 0, 0, 0⟩, ⟨0, 0, 0, 0, 0⟩, 0, [], [], []⟩).2 =
      Except.error "peer sent us a piece we did not ask" :=
  (c10_unsolicited_chunk_side_effects _ 5 0 true true _ _
    ⟨0, 0, 0, 16384⟩ (by decide) (by decide)).1

/-! ### Claim C2: piece-ownership check on reception -/

/-- C2: for a call of `on_received_piece` by peer `self` delivering a valid,
solicited chunk of piece `p`: (first part) when the `inflight_pieces` entry
of `p` is absent or owned by another peer, the call returns `Ok` while
leaving the chunk tracker, the inflight map and the disk untouched; (second
part) any call that does reach the disk found, under the write lock, the
entry of `p` present and owned by `self` - so the bytes of a piece are only
ever written by its current owner. -/
theorem c2_ownership_check (L : Lengths) (self : Addr) (now : Nat)
    (diskOk hashOk : Bool) (msg : PieceMsg) (s : RecvState) (ci : ChunkInfo)
    (hv : chunkInfoFromReceivedPiece L msg.index msg.begin_ msg.blockLen = some ci) :
    ((({ piece := ci.pieceIndex, chunk := ci.chunkIndex } : InflightRequest) ∈
        s.inflightRequests →
      (∀ ip, ipLookup s.locked.inflight_pieces ci.pieceIndex = some ip →
        ip.peer ≠ self) →
      (onReceivedPiece L self now diskOk hashOk msg s).2 = Except.ok () ∧
      (onReceivedPiece L self now diskOk hashOk msg s).1.locked.chunks =
        s.locked.chunks ∧
      (onReceivedPiece L self now diskOk hashOk msg s).1.locked.inflight_pieces =
        s.locked.inflight_pieces ∧
      (onReceivedPiece L self now diskOk hashOk msg s).1.diskWrites =
        s.diskWrites)) ∧
    ((onReceivedPiece L self now diskOk hashOk msg s).1.diskWrites ≠
        s.diskWrites →
      ∃ ip, ipLookup s.locked.inflight_pieces ci.pieceIndex = some ip ∧
        ip.peer = self) := by
  constructor
  · intro hmem hown
    unfold onReceivedPiece
    rw [hv]
    dsimp only
    rw [if_pos hmem]
    rcases hl : ipLookup s.locked.inflight_pieces ci.pieceIndex with _ | ip
    · simp [lockedRecv, hl]
    · have hne := hown ip hl
      simp [lockedRecv, hl, if_neg hne]
  · intro hw
    unfold onReceivedPiece at hw
    rw [hv] at hw
    dsimp only at hw
    by_cases hmem : ({ piece := ci.pieceIndex, chunk := ci.chunkIndex } :
        InflightRequest) ∈ s.inflightRequests
    · rw [if_pos hmem] at hw
      rcases hl : ipLookup s.locked.inflight_pieces ci.pieceIndex with _ | ip
      · simp only [lockedRecv, hl] at hw
        exact absurd rfl hw
      · by_cases hps : ip.peer = self
        · exact ⟨ip, rfl, hps⟩
        · simp only [lockedRecv, hl, if_neg hps] at hw
          exact absurd rfl hw
    · rw [if_neg hmem] at hw
      exact absurd rfl hw

theorem c2_ownership_check_witness :
    (onReceivedPiece ⟨16384, 16384⟩ 5 0 true true ⟨0, 0, 16384⟩
        ⟨⟨some ⟨[⟨false, false, [⟨false, 16384⟩]⟩]⟩, [(0, ⟨9, 0⟩)], some ()⟩,
          ⟨0, 0, 0, 0, 0, 0⟩, ⟨0, 0, 0, 0, 0⟩, 0, [⟨0, 0⟩], [], []⟩).2 =
      Except.ok () ∧
    (onReceivedPiece ⟨16384, 16384⟩ 5 0 true true ⟨0, 0, 16384⟩
        ⟨⟨some ⟨[⟨false, false, [⟨false, 16384⟩]⟩]⟩, [(0, ⟨9, 0⟩)], some ()⟩,
          ⟨0, 0, 0, 0, 0, 0⟩, ⟨0, 0, 0, 0, 0⟩, 0, [⟨0, 0⟩], [], []⟩).1.diskWrites =
      [] :=
  ((c2_ownership_check ⟨16384, 16384⟩ 5 0 true true ⟨0, 0, 16384⟩
      ⟨⟨some ⟨[⟨false, false, [⟨false, 16384⟩]⟩]⟩, [(0, ⟨9, 0⟩)], some ()⟩,
        ⟨0, 0, 0, 0, 0, 0⟩, ⟨0, 0, 0, 0, 0⟩, 0, [⟨0, 0⟩], [], []⟩
      ⟨0, 0, 0, 16384⟩ (by decide)).1 (by decide)
    (by intro ip hip; cases hip; decide)).elim
    (fun h1 h2 => ⟨h1, h2.2.2⟩)

/-! ### Claim C6: checksum failure is blameless -/

theorem get?_lt_of_eq_some {α : Type} {l : List α} {n : Nat} {a : α}
    (h : l.get? n = some a) : n < l.length := by
  by_contra hn
  rw [List.get?_eq_none.mpr (Nat.le_of_not_lt hn)] at h
  cases h

theorem markChunkDownloaded_some_isSome (t : ChunkTracker) (pc c : Nat)
    (t' : ChunkTracker) (r : ChunkMarkingResult)
    (h : t.markChunkDownloaded pc c = (t', some r)) :
    (t'.pieces.get? pc).isSome = true := by
  unfold ChunkTracker.markChunkDownloaded at h
  rcases hp : t.pieces.get? pc with _ | p
  · simp only [hp] at h
    simp at h
  · have hlt := get?_lt_of_eq_some hp
    simp only [hp] at h
    rcases hc : p.chunks.get? c with _ | ch
    · simp only [hc] at h
      simp at h
    · simp only [hc] at h
      split at h
      · injection h with h1 h2
        rw [← h1, hp]
        rfl
      · split at h
        · injection h with h1 h2
          rw [← h1]
          simp [List.getElem?_set_eq_of_lt _ hlt]
        · injection h with h1 h2
          rw [← h1]
          simp [List.getElem?_set_eq_of_lt _ hlt]

theorem markPieceBroken_needed_self (t : ChunkTracker) (n : Nat)
    (h : (t.pieces.get? n).isSome = true) :
    (t.markPieceBroken n).needed n = true := by
  rcases hp : t.pieces.get? n with _ | p
  · rw [hp] at h
    cases h
  · unfold ChunkTracker.markPieceBroken ChunkTracker.needed
    simp only [hp]
    simp [List.getElem?_set_eq_of_lt _ (get?_lt_of_eq_some hp)]

/-- C6: when a completed piece fails its SHA-1 check (`hashOk = false`), the
reception path applies `mark_piece_broken` to the piece - its chunks become
needed again, so `needed` answers true for it - and the call returns `Ok`:
no error reaches the peer task (so the peer is not transitioned to `Dead` by
this event), and neither the peer's error counter nor any
downloaded-and-checked counter moves. -/
theorem c6_checksum_failure_blameless (L : Lengths) (self : Addr) (now : Nat)
    (msg : PieceMsg) (s : RecvState) (ci : ChunkInfo) (ip : InflightPiece)
    (t t' : ChunkTracker)
    (hv : chunkInfoFromReceivedPiece L msg.index msg.begin_ msg.blockLen = some ci)
    (hmem : ({ piece := ci.pieceIndex, chunk := ci.chunkIndex } : InflightRequest) ∈
      s.inflightRequests)
    (hl : ipLookup s.locked.inflight_pieces ci.pieceIndex = some ip)
    (hps : ip.peer = self)
    (hch : s.locked.chunks = some t)
    (hmk : t.markChunkDownloaded ci.pieceIndex ci.chunkIndex =
      (t', some ChunkMarkingResult.completed)) :
    (onReceivedPiece L self now true false msg s).2 = Except.ok () ∧
    (onReceivedPiece L self now true false msg s).1.locked.chunks =
      some (t'.markPieceBroken ci.pieceIndex) ∧
    (t'.markPieceBroken ci.pieceIndex).needed ci.pieceIndex = true ∧
    (onReceivedPiece L self now true false msg s).1.counters.errors =
      s.counters.errors ∧
    (onReceivedPiece L self now true false msg s).1.counters.downloaded_and_checked_pieces =
      s.counters.downloaded_and_checked_pieces ∧
    (onReceivedPiece L self now true false msg s).1.stats.downloaded_and_checked_pieces =
      s.stats.downloaded_and_checked_pieces := by
  have hneed := markPieceBroken_needed_self t' ci.pieceIndex
    (markChunkDownloaded_some_isSome t ci.pieceIndex ci.chunkIndex t' _ hmk)
  unfold onReceivedPiece
  rw [hv]
  dsimp only
  rw [if_pos hmem]
  simp only [lockedRecv, hl, if_pos hps, hch, hmk]
  simp [recvDiskStage, hneed]

theorem c6_checksum_failure_blameless_witness :
    (onReceivedPiece ⟨16384, 16384⟩ 5 7 true false ⟨0, 0, 16384⟩
        ⟨⟨some ⟨[⟨false, false, [⟨false, 16384⟩]⟩]⟩, [(0, ⟨5, 2⟩)], some ()⟩,
          ⟨0, 0, 0, 0, 0, 0⟩, ⟨0, 0, 0, 0, 0⟩, 0, [⟨0, 0⟩], [], []⟩).2 =
      Except.ok () ∧
    ((⟨[⟨false, false, [⟨true, 16384⟩]⟩]⟩ : ChunkTracker).markPieceBroken 0).needed 0 =
      true :=
  (c6_checksum_failure_blameless ⟨16384, 16384⟩ 5 7 ⟨0, 0, 16384⟩
      ⟨⟨some ⟨[⟨false, false, [⟨false, 16384⟩]⟩]⟩, [(0, ⟨5, 2⟩)], some ()⟩,
        ⟨0, 0, 0, 0, 0, 0⟩, ⟨0, 0, 0, 0, 0⟩, 0, [⟨0, 0⟩], [], []⟩
      ⟨0, 0, 0, 16384⟩ ⟨5, 2⟩ ⟨[⟨false, false, [⟨false, 16384⟩]⟩]⟩
      ⟨[⟨false, false, [⟨true, 16384⟩]⟩]⟩
      (by decide) (by decide) (by decide) (by decide) (by decide) (by decide)).elim
    (fun h1 h2 => ⟨h1, h2.2.1⟩)

/-! ### Claim C4: three-tier piece selection -/

theorem mexFold_le (now : Nat) (lst : InflightMap) :
    ∀ (acc : Option (Nat × Nat)) (idx e : Nat),
      lst.foldl (mexStep now) acc = some (idx, e) →
      (∀ kv ∈ lst, now - kv.2.started ≤ e) ∧
      (∀ b : Nat × Nat, acc = some b → b.2 ≤ e) := by
  induction lst with
  | nil =>
    intro acc idx e h
    rw [List.foldl_nil] at h
    refine ⟨fun kv hkv => absurd hkv (List.not_mem_nil kv), ?_⟩
    intro b hb
    rw [hb] at h
    injection h with h1
    rw [h1]
  | cons kv tl ih =>
    intro acc idx e h
    rw [List.foldl_cons] at h
    obtain ⟨h1, h2⟩ := ih (mexStep now acc kv) idx e h
    have hhd : now - kv.2.started ≤ e := by
      cases hacc : acc with
      | none => exact h2 (kv.1, now - kv.2.started) (by rw [hacc]; rfl)
      | some best =>
        by_cases hge : best.2 ≤ now - kv.2.started
        · exact h2 (kv.1, now - kv.2.started)
            (by rw [hacc]; simp [mexStep, hge])
        · have hb := h2 best (by rw [hacc]; simp [mexStep, hge])
          exact Nat.le_trans (Nat.le_of_lt (Nat.lt_of_not_le hge)) hb
    refine ⟨?_, ?_⟩
    · intro kv' hkv'
      rcases List.mem_cons.mp hkv' with hkv' | hkv'
      · rw [hkv']; exact hhd
      · exact h1 kv' hkv'
    · intro b hb
      cases hacc : acc with
      | none => rw [hacc] at hb; cases hb
      | some best =>
        rw [hacc] at hb
        injection hb with hb1
        rw [← hb1]
        by_cases hge : best.2 ≤ now - kv.2.started
        · have := h2 (kv.1, now - kv.2.started) (by rw [hacc]; simp [mexStep, hge])
          exact Nat.le_trans hge this
        · exact h2 best (by rw [hacc]; simp [mexStep, hge])

theorem mexFold_mem (now : Nat) (lst : InflightMap) :
    ∀ (acc : Option (Nat × Nat)) (idx e : Nat),
      lst.foldl (mexStep now) acc = some (idx, e) →
      acc = some (idx, e) ∨
        ∃ kv, kv ∈ lst ∧ kv.1 = idx ∧ now - kv.2.started = e := by
  induction lst with
  | nil =>
    intro acc idx e h
    rw [List.foldl_nil] at h
    exact Or.inl h
  | cons kv tl ih =>
    intro acc idx e h
    rw [List.foldl_cons] at h
    rcases ih (mexStep now acc kv) idx e h with hacc | ⟨kv', hm, hk, he⟩
    · cases haccv : acc with
      | none =>
        rw [haccv] at hacc
        have h' : (some (kv.1, now - kv.2.started) : Option (Nat × Nat)) = some (idx, e) := hacc
        injection h' with h1
        right
        exact ⟨kv, List.mem_cons_self kv tl,
          congrArg Prod.fst h1, congrArg Prod.snd h1⟩
      | some best =>
        rw [haccv] at hacc
        by_cases hge : best.2 ≤ now - kv.2.started
        · have h' : (some (kv.1, now - kv.2.started) : Option (Nat × Nat)) = some (idx, e) := by
            simpa [mexStep, hge] using hacc
          injection h' with h1
          right
          exact ⟨kv, List.mem_cons_self kv tl,
            congrArg Prod.fst h1, congrArg Prod.snd h1⟩
        · left
          simpa [mexStep, hge] using hacc
    · right
      exact ⟨kv', List.mem_cons_of_mem kv hm, hk, he⟩

theorem maxElapsedEntry_spec (self : Addr) (now : Nat) (m : InflightMap)
    (idx e : Nat) (h : maxElapsedEntry self now m = some (idx, e)) :
    (∃ ip, (idx, ip) ∈ m ∧ ip.peer ≠ self ∧ now - ip.started = e) ∧
    (∀ kv ∈ m, kv.2.peer ≠ self → now - kv.2.started ≤ e) := by
  unfold maxElapsedEntry at h
  have hm := mexFold_mem now (m.filter (fun kv => kv.2.peer ≠ self)) none idx e h
  have hle := mexFold_le now (m.filter (fun kv => kv.2.peer ≠ self)) none idx e h
  constructor
  · rcases hm with hacc | ⟨kv, hmem, hk, he⟩
    · cases hacc
    · obtain ⟨hmm, hp⟩ := List.mem_filter.mp hmem
      refine ⟨kv.2, ?_, of_decide_eq_true hp, he⟩
      rw [← hk]
      exact hmm
  · intro kv hkv hne
    exact hle.1 kv (List.mem_filter.mpr ⟨hkv, decide_eq_true hne⟩)

theorem trySteal_some_inv (self : Addr) (now : Nat) (stats : GlobalStats)
    (threshold : ℚ) (g : TorrentStateLocked) (p : Nat)
    (h : (tryStealOldSlowPiece self now stats threshold g).2 = some p) :
    20 ≤ stats.downloaded_and_checked_pieces ∧
    ∃ e, maxElapsedEntry self now g.inflight_pieces = some (p, e) ∧
      ((e : ℚ) > ((stats.total_piece_download_ms : ℚ) /
        (stats.downloaded_and_checked_pieces : ℚ)) * threshold) ∧
      (tryStealOldSlowPiece self now stats threshold g).1 =
        { g with inflight_pieces :=
            ipOverwrite g.inflight_pieces p { peer := self, started := now } } := by
  unfold tryStealOldSlowPiece at h
  by_cases h20 : stats.downloaded_and_checked_pieces < 20
  · rw [if_pos h20] at h
    simp at h
  · rw [if_neg h20] at h
    have hnz : stats.downloaded_and_checked_pieces ≠ 0 := by
      intro h0
      exact h20 (by rw [h0]; decide)
    unfold averagePieceDownloadTime at h
    rw [if_neg hnz] at h
    rcases hmax : maxElapsedEntry self now g.inflight_pieces with _ | pe
    · rw [hmax] at h
      simp at h
    · rcases pe with ⟨idx, e⟩
      rw [hmax] at h
      dsimp only at h
      by_cases hgt : ((e : ℚ) > ((stats.total_piece_download_ms : ℚ) /
          (stats.downloaded_and_checked_pieces : ℚ)) * threshold)
      · rw [if_pos hgt] at h
        dsimp only at h
        injection h with h1
        subst h1
        refine ⟨Nat.le_of_not_lt h20, e, rfl, hgt, ?_⟩
        unfold tryStealOldSlowPiece averagePieceDownloadTime
        rw [if_neg h20, if_neg hnz, hmax]
        dsimp only
        rw [if_pos hgt]
      · rw [if_neg hgt] at h
        simp at h

/-- C4: the requester's selection is the first non-null tier among
`try_steal_old_slow_piece(10)`, `reserve_next_needed_piece` and
`try_steal_old_slow_piece(2)` (a reserve error counts as null); and a
successful steal at threshold `t` implies at least 20 globally verified
pieces, that the stolen piece's entry belonged to a different peer and had
elapsed time maximal among the other-owned entries and strictly above
`t * (total_piece_download_ms / downloaded_and_checked_pieces)`, and that
the entry is overwritten in place to `{peer: self, started: now}`. -/
theorem c4_three_tier_selection (choked : Bool) (bf : List Bool) (self : Addr)
    (now : Nat) (stats : GlobalStats) (g : TorrentStateLocked) :
    (∀ p, (tryStealOldSlowPiece self now stats 10 g).2 = some p →
      selectPiece choked bf self now stats g =
        tryStealOldSlowPiece self now stats 10 g) ∧
    ((tryStealOldSlowPiece self now stats 10 g).2 = none →
      ∀ p, (reserveNextNeededPiece choked bf self now
          (tryStealOldSlowPiece self now stats 10 g).1).2 = Except.ok (some p) →
        selectPiece choked bf self now stats g =
          ((reserveNextNeededPiece choked bf self now
            (tryStealOldSlowPiece self now stats 10 g).1).1, some p)) ∧
    ((tryStealOldSlowPiece self now stats 10 g).2 = none →
      (∀ p, (reserveNextNeededPiece choked bf self now
          (tryStealOldSlowPiece self now stats 10 g).1).2 ≠ Except.ok (some p)) →
      selectPiece choked bf self now stats g =
        tryStealOldSlowPiece self now stats 2
          (reserveNextNeededPiece choked bf self now
            (tryStealOldSlowPiece self now stats 10 g).1).1) ∧
    (∀ threshold : ℚ, ∀ p, (tryStealOldSlowPiece self now stats threshold g).2 = some p →
      20 ≤ stats.downloaded_and_checked_pieces ∧
      ∃ ip, (p, ip) ∈ g.inflight_pieces ∧ ip.peer ≠ self ∧
        (∀ kv ∈ g.inflight_pieces, kv.2.peer ≠ self →
          now - kv.2.started ≤ now - ip.started) ∧
        (((now - ip.started : Nat) : ℚ) >
          ((stats.total_piece_download_ms : ℚ) /
            (stats.downloaded_and_checked_pieces : ℚ)) * threshold) ∧
        (tryStealOldSlowPiece self now stats threshold g).1.inflight_pieces =
          ipOverwrite g.inflight_pieces p { peer := self, started := now }) := by
  refine ⟨?_, ?_, ?_, ?_⟩
  · intro p hp
    unfold selectPiece
    split
    · next heq => exact heq.symm
    · next heq =>
      rw [heq] at hp
      simp at hp
  · intro h1 p h2
    unfold selectPiece
    split
    · next heq =>
      rw [heq] at h1
      simp at h1
    · next g1 heq =>
      simp only [heq] at h2
      split
      · next g2 q heq2 =>
        rw [heq2] at h2
        simp only [] at h2
        injection h2 with h2'
        injection h2' with h2''
        subst h2''
        simp only [heq, heq2]
      · next g2 q heq2 =>
        rw [heq2] at h2
        simp at h2
      · next g2 s heq2 =>
        rw [heq2] at h2
        simp at h2
  · intro h1 h2
    unfold selectPiece
    split
    · next heq =>
      rw [heq] at h1
      simp at h1
    · next g1 heq =>
      simp only [heq] at h2
      split
      · next g2 q heq2 =>
        rw [heq2] at h2
        exact absurd rfl (h2 q)
      · next g2 q heq2 =>
        simp only [heq, heq2]
      · next g2 s heq2 =>
        simp only [heq, heq2]
  · intro threshold p hp
    obtain ⟨h20, e, hmax, hgt, hstate⟩ :=
      trySteal_some_inv self now stats threshold g p hp
    obtain ⟨⟨ip, hmem, hne, helapsed⟩, hmaxle⟩ :=
      maxElapsedEntry_spec self now g.inflight_pieces p e hmax
    refine ⟨h20, ip, hmem, hne, ?_, ?_, ?_⟩
    · intro kv hkv hkvne
      rw [helapsed]
      exact hmaxle kv hkv hkvne
    · rw [helapsed]
      exact hgt
    · rw [hstate]

theorem c4_three_tier_selection_witness :
    selectPiece false [true] 0 1000
        ⟨0, 0, 20, 0, 0, 20⟩ ⟨some ⟨[⟨false, false, [⟨false, 16384⟩]⟩]⟩,
          [(0, ⟨1, 0⟩)], some ()⟩ =
      tryStealOldSlowPiece 0 1000 ⟨0, 0, 20, 0, 0, 20⟩ 10
        ⟨some ⟨[⟨false, false, [⟨false, 16384⟩]⟩]⟩, [(0, ⟨1, 0⟩)], some ()⟩ ∧
    20 ≤ (20 : Nat) :=
  have hm : maxElapsedEntry 0 1000 [(0, ⟨1, 0⟩)] = some (0, 1000) := by decide
  have hsteal : (tryStealOldSlowPiece 0 1000 ⟨0, 0, 20, 0, 0, 20⟩ 10
      ⟨some ⟨[⟨false, false, [⟨false, 16384⟩]⟩]⟩, [(0, ⟨1, 0⟩)], some ()⟩).2 =
      some 0 := by
    unfold tryStealOldSlowPiece averagePieceDownloadTime
    rw [if_neg (by decide : ¬((20 : Nat) < 20)), if_neg (by decide : ¬((20 : Nat) = 0))]
    simp only [hm]
    rw [if_pos (by norm_num : ((1000 : Nat) : ℚ) > (((20 : Nat) : ℚ) / ((20 : Nat) : ℚ)) * 10)]
  ⟨(c4_three_tier_selection false [true] 0 1000 ⟨0, 0, 20, 0, 0, 20⟩
      ⟨some ⟨[⟨false, false, [⟨false, 16384⟩]⟩]⟩, [(0, ⟨1, 0⟩)], some ()⟩).1 0 hsteal,
    ((c4_three_tier_selection false [true] 0 1000 ⟨0, 0, 20, 0, 0, 20⟩
      ⟨some ⟨[⟨false, false, [⟨false, 16384⟩]⟩]⟩, [(0, ⟨1, 0⟩)], some ()⟩).2.2.2
      10 0 hsteal).1⟩

/-! ### Claim C7: re-steal of a previously requested piece -/

/-- C7 (failing input): with piece 0 recorded in
`previously_requested_pieces` and piece 0 inflight for another peer long
enough to satisfy the tier-1 steal condition, one selection round of the
requester chooses piece 0 again - the recorded bitfield is written by the
loop but never consulted by either stealing tier, against the field's own
comment and the spec. -/
theorem c7_steal_ignores_previously_requested :
    (requesterChooseOnce false [true] [true] 0 1000 ⟨0, 0, 20, 0, 0, 20⟩
        ⟨some ⟨[⟨false, false, [⟨false, 16384⟩]⟩]⟩, [(0, ⟨1, 0⟩)], some ()⟩).2.2 =
      some 0 ∧
    ([true] : List Bool).get? 0 = some true := by
  have hm : maxElapsedEntry 0 1000 [(0, ⟨1, 0⟩)] = some (0, 1000) := by decide
  have hsteal : tryStealOldSlowPiece 0 1000 ⟨0, 0, 20, 0, 0, 20⟩ 10
      ⟨some ⟨[⟨false, false, [⟨false, 16384⟩]⟩]⟩, [(0, ⟨1, 0⟩)], some ()⟩ =
      (⟨some ⟨[⟨false, false, [⟨false, 16384⟩]⟩]⟩, [(0, ⟨0, 1000⟩)], some ()⟩,
        some 0) := by
    unfold tryStealOldSlowPiece averagePieceDownloadTime
    rw [if_neg (by decide : ¬((20 : Nat) < 20)), if_neg (by decide : ¬((20 : Nat) = 0))]
    simp only [hm]
    rw [if_pos (by norm_num :
      ((1000 : Nat) : ℚ) > (((20 : Nat) : ℚ) / ((20 : Nat) : ℚ)) * 10)]
    rfl
  constructor
  · unfold requesterChooseOnce selectPiece
    rw [hsteal]
  · rfl

/-! ### Claim C5: pause postconditions -/

theorem sum_map_set {α : Type} (f : α → Nat) (l : List α) :
    ∀ (k : Nat) (a b : α), l.get? k = some b →
      ((l.set k a).map f).sum + f b = (l.map f).sum + f a := by
  induction l with
  | nil =>
    intro k a b h
    cases h
  | cons hd tl ih =>
    intro k a b h
    cases k with
    | zero =>
      injection h with h1
      subst h1
      simp only [List.set, List.map_cons, List.sum_cons]
      omega
    | succ k1 =>
      simp only [List.set, List.map_cons, List.sum_cons]
      have ihs := ih k1 a b (by simpa using h)
      omega

theorem dlBytes_brokenPiece (p : CtPiece) :
    CtPiece.dlBytes
      { queued := true, verified := false,
        chunks := p.chunks.map (fun c => { c with downloaded := false }) } = 0 := by
  unfold CtPiece.dlBytes
  rw [List.map_map]
  exact List.sum_eq_zero (by intro x hx; rcases List.mem_map.mp hx with ⟨c, _, rfl⟩; rfl)

theorem calcHaveBytes_markPieceBroken (t : ChunkTracker) (k : Nat) :
    (t.markPieceBroken k).calcHaveBytes + t.pieceDlBytes k = t.calcHaveBytes := by
  unfold ChunkTracker.markPieceBroken ChunkTracker.pieceDlBytes ChunkTracker.calcHaveBytes
  rcases hp : t.pieces.get? k with _ | p
  · simp
  · dsimp only
    have hs := sum_map_set CtPiece.dlBytes t.pieces k
      { queued := true, verified := false,
        chunks := p.chunks.map (fun c => { c with downloaded := false }) } p hp
    have hz := dlBytes_brokenPiece p
    omega

theorem markPieceBroken_get?_ne (t : ChunkTracker) (k0 k : Nat) (h : k ≠ k0) :
    (t.markPieceBroken k0).pieces.get? k = t.pieces.get? k := by
  unfold ChunkTracker.markPieceBroken
  rcases hp : t.pieces.get? k0 with _ | p
  · rfl
  · exact List.get?_set_ne _ _ (fun he => h he.symm)

theorem pieceDlBytes_markPieceBroken_ne (t : ChunkTracker) (k0 k : Nat)
    (h : k ≠ k0) : (t.markPieceBroken k0).pieceDlBytes k = t.pieceDlBytes k := by
  unfold ChunkTracker.pieceDlBytes
  rw [markPieceBroken_get?_ne t k0 k h]

theorem calcHaveBytes_foldBroken (ks : List Nat) :
    ∀ (t : ChunkTracker), ks.Nodup →
      (ks.foldl (fun acc k => acc.markPieceBroken k) t).calcHaveBytes +
        (ks.map (fun k => t.pieceDlBytes k)).sum = t.calcHaveBytes := by
  induction ks with
  | nil =>
    intro t _
    simp
  | cons k ks ih =>
    intro t hnd
    obtain ⟨hk, hnd'⟩ := List.nodup_cons.mp hnd
    simp only [List.foldl_cons, List.map_cons, List.sum_cons]
    have hmap : ks.map (fun k' => t.pieceDlBytes k') =
        ks.map (fun k' => (t.markPieceBroken k).pieceDlBytes k') := by
      refine List.map_congr_left ?_
      intro k' hk'
      exact (pieceDlBytes_markPieceBroken_ne t k k'
        (fun he => hk (he ▸ hk'))).symm
    rw [hmap]
    have ih' := ih (t.markPieceBroken k) hnd'
    have hone := calcHaveBytes_markPieceBroken t k
    omega

theorem markPieceBroken_needed_of_isSome (t : ChunkTracker) (k : Nat)
    (h : (t.pieces.get? k).isSome = true) :
    (t.markPieceBroken k).needed k = true :=
  markPieceBroken_needed_self t k h

theorem markPieceBroken_get?_isSome (t : ChunkTracker) (k0 k : Nat)
    (h : (t.pieces.get? k).isSome = true) :
    ((t.markPieceBroken k0).pieces.get? k).isSome = true := by
  by_cases hk : k = k0
  · subst hk
    unfold ChunkTracker.markPieceBroken
    rcases hp : t.pieces.get? k with _ | p
    · rw [hp] at h
      cases h
    · simp [List.getElem?_set_eq_of_lt _ (get?_lt_of_eq_some hp)]
  · rw [markPieceBroken_get?_ne t k0 k hk]
    exact h

theorem foldBroken_get?_not_mem (ks : List Nat) :
    ∀ (t : ChunkTracker) (k : Nat), k ∉ ks →
      (ks.foldl (fun acc k' => acc.markPieceBroken k') t).pieces.get? k =
        t.pieces.get? k := by
  induction ks with
  | nil =>
    intro t k _
    rfl
  | cons k0 ks ih =>
    intro t k hk
    simp only [List.foldl_cons]
    rw [ih (t.markPieceBroken k0) k (fun hm => hk (List.mem_cons_of_mem k0 hm))]
    exact markPieceBroken_get?_ne t k0 k
      (fun he => hk (he ▸ List.mem_cons_self k0 ks))

theorem foldBroken_needed (ks : List Nat) :
    ∀ (t : ChunkTracker) (k : Nat), k ∈ ks → ks.Nodup →
      (t.pieces.get? k).isSome = true →
      (ks.foldl (fun acc k' => acc.markPieceBroken k') t).needed k = true := by
  induction ks with
  | nil =>
    intro t k hk _ _
    cases hk
  | cons k0 ks ih =>
    intro t k hk hnd hsome
    obtain ⟨hk0, hnd'⟩ := List.nodup_cons.mp hnd
    simp only [List.foldl_cons]
    rcases List.mem_cons.mp hk with hk | hk
    · subst hk
      rw [show ChunkTracker.needed = fun t i => (match t.pieces.get? i with
        | some p => p.queued | none => false) from rfl]
      dsimp only
      rw [foldBroken_get?_not_mem ks (t.markPieceBroken k) k hk0]
      have := markPieceBroken_needed_self t k hsome
      unfold ChunkTracker.needed at this
      exact this
    · exact ih (t.markPieceBroken k0) k hk hnd'
        (markPieceBroken_get?_isSome t k0 k hsome)

/-- C5: `pause` on a live ledger takes the chunk tracker out (a second
`pause` on the resulting ledger fails with the pausing-already-paused
error), replaces every live file slot with the null-device sentinel, and
returns a snapshot that carries the moved-out handles and the tracker with
every then-inflight piece marked broken (each such in-range piece is needed
again); its `have_bytes` is `calc_have_bytes` of that post-marking tracker,
which equals the pre-pause have count minus the counted bytes of the
then-inflight pieces. -/
theorem c5_pause_postconditions (g : TorrentStateLocked)
    (files files2 : List FileHandle) (t : ChunkTracker)
    (hch : g.chunks = some t)
    (hnd : (g.inflight_pieces.map Prod.fst).Nodup) :
    (pause g files).1.chunks = none ∧
    (pause (pause g files).1 files2).2.2 =
      Except.error "bug: pausing already paused torrent" ∧
    (pause g files).2.1 = files.map (fun _ => FileHandle.devnull) ∧
    (pause g files).2.2 = Except.ok
      { files := files,
        chunk_tracker := (g.inflight_pieces.map Prod.fst).foldl
          (fun acc k => acc.markPieceBroken k) t,
        have_bytes := ((g.inflight_pieces.map Prod.fst).foldl
          (fun acc k => acc.markPieceBroken k) t).calcHaveBytes } ∧
    (∀ k ∈ g.inflight_pieces.map Prod.fst, (t.pieces.get? k).isSome = true →
      ((g.inflight_pieces.map Prod.fst).foldl
        (fun acc k' => acc.markPieceBroken k') t).needed k = true) ∧
    ((g.inflight_pieces.map Prod.fst).foldl
        (fun acc k => acc.markPieceBroken k) t).calcHaveBytes +
      ((g.inflight_pieces.map Prod.fst).map (fun k => t.pieceDlBytes k)).sum =
      t.calcHaveBytes := by
  refine ⟨?_, ?_, ?_, ?_, ?_, ?_⟩
  · unfold pause
    rw [hch]
  · unfold pause
    rw [hch]
  · unfold pause
    rw [hch]
  · unfold pause
    rw [hch]
  · intro k hk hsome
    exact foldBroken_needed (g.inflight_pieces.map Prod.fst) t k hk hnd hsome
  · exact calcHaveBytes_foldBroken (g.inflight_pieces.map Prod.fst) t hnd

theorem c5_pause_postconditions_witness :
    (pause ⟨some ⟨[⟨false, false, [⟨true, 100⟩, ⟨false, 100⟩]⟩, ⟨false, true, [⟨true, 200⟩]⟩]⟩,
        [(0, ⟨3, 5⟩)], some ()⟩ [FileHandle.real 0]).1.chunks = none ∧
    (pause ⟨some ⟨[⟨false, false, [⟨true, 100⟩, ⟨false, 100⟩]⟩, ⟨false, true, [⟨true, 200⟩]⟩]⟩,
        [(0, ⟨3, 5⟩)], some ()⟩ [FileHandle.real 0]).2.1 = [FileHandle.devnull] :=
  have h := c5_pause_postconditions
    ⟨some ⟨[⟨false, false, [⟨true, 100⟩, ⟨false, 100⟩]⟩, ⟨false, true, [⟨true, 200⟩]⟩]⟩,
      [(0, ⟨3, 5⟩)], some ()⟩ [FileHandle.real 0] []
    ⟨[⟨false, false, [⟨true, 100⟩, ⟨false, 100⟩]⟩, ⟨false, true, [⟨true, 200⟩]⟩]⟩
    (by decide) (by decide)
  ⟨h.1, by rw [h.2.2.1]; rfl⟩

/-! ### Claim C1: the reservation ledger invariant -/

theorem reservedCt_spec (t : ChunkTracker) (i : Nat)
    (h : t.reservedCt i = true) :
    ∃ p, t.pieces.get? i = some p ∧ p.queued = false ∧ p.completed = false := by
  unfold ChunkTracker.reservedCt ChunkTracker.needed ChunkTracker.isCompleted at h
  rcases hp : t.pieces.get? i with _ | p <;> rw [hp] at h
  · simp only [Bool.and_eq_true, decide_eq_true_eq] at h
    exact absurd (List.get?_eq_none.mp hp) (Nat.not_le_of_lt h.1.1)
  · simp only [Bool.and_eq_true, Bool.not_eq_true', decide_eq_true_eq] at h
    exact ⟨p, rfl, h.1.2, h.2⟩

theorem reservedCt_congr (t t' : ChunkTracker) (i : Nat)
    (hlen : t'.pieces.length = t.pieces.length)
    (hget : t'.pieces.get? i = t.pieces.get? i) :
    t'.reservedCt i = t.reservedCt i := by
  unfold ChunkTracker.reservedCt ChunkTracker.needed ChunkTracker.isCompleted
  rw [hlen, hget]

theorem reservedCt_false_of_needed (t : ChunkTracker) (i : Nat)
    (h : t.needed i = true) : t.reservedCt i = false := by
  unfold ChunkTracker.reservedCt
  rw [h]
  simp

theorem reservedCt_false_of_completed (t : ChunkTracker) (i : Nat)
    (h : t.isCompleted i = true) : t.reservedCt i = false := by
  unfold ChunkTracker.reservedCt
  rw [h]
  simp

theorem reserveNeededPiece_length (t : ChunkTracker) (n : Nat) :
    (t.reserveNeededPiece n).pieces.length = t.pieces.length := by
  unfold ChunkTracker.reserveNeededPiece
  rcases hp : t.pieces.get? n with _ | p
  · rfl
  · simp

theorem reserveNeededPiece_get?_ne (t : ChunkTracker) (n i : Nat) (h : i ≠ n) :
    (t.reserveNeededPiece n).pieces.get? i = t.pieces.get? i := by
  unfold ChunkTracker.reserveNeededPiece
  rcases hp : t.pieces.get? n with _ | p
  · rfl
  · exact List.get?_set_ne _ _ (fun he => h he.symm)

theorem reserveNeededPiece_needed_self (t : ChunkTracker) (n : Nat) :
    (t.reserveNeededPiece n).needed n = false := by
  unfold ChunkTracker.reserveNeededPiece ChunkTracker.needed
  rcases hp : t.pieces.get? n with _ | p
  · rw [hp]
  · simp [List.getElem?_set_eq_of_lt _ (get?_lt_of_eq_some hp)]

theorem markChunkDownloaded_fst_length (t : ChunkTracker) (pc ck : Nat) :
    (t.markChunkDownloaded pc ck).1.pieces.length = t.pieces.length := by
  unfold ChunkTracker.markChunkDownloaded
  rcases hp : t.pieces.get? pc with _ | p
  · rfl
  · dsimp only
    rcases hc : p.chunks.get? ck with _ | ch
    · rfl
    · dsimp only
      by_cases hcmp : p.completed = true
      · rw [if_pos hcmp]
      · rw [if_neg hcmp]
        by_cases hcmp' : CtPiece.completed
            { p with chunks := p.chunks.set ck { ch with downloaded := true } } = true
        · rw [if_pos hcmp']
          simp
        · rw [if_neg hcmp']
          simp

theorem markChunkDownloaded_fst_get?_ne (t : ChunkTracker) (pc ck i : Nat)
    (h : i ≠ pc) :
    (t.markChunkDownloaded pc ck).1.pieces.get? i = t.pieces.get? i := by
  unfold ChunkTracker.markChunkDownloaded
  rcases hp : t.pieces.get? pc with _ | p
  · rfl
  · dsimp only
    rcases hc : p.chunks.get? ck with _ | ch
    · rfl
    · dsimp only
      by_cases hcmp : p.completed = true
      · rw [if_pos hcmp]
      · rw [if_neg hcmp]
        by_cases hcmp' : CtPiece.completed
            { p with chunks := p.chunks.set ck { ch with downloaded := true } } = true
        · rw [if_pos hcmp']
          exact List.get?_set_ne _ _ (fun he => h he.symm)
        · rw [if_neg hcmp']
          exact List.get?_set_ne _ _ (fun he => h he.symm)

theorem markChunkDownloaded_completed_isCompleted (t : ChunkTracker) (pc ck : Nat)
    (t' : ChunkTracker)
    (h : t.markChunkDownloaded pc ck = (t', some ChunkMarkingResult.completed)) :
    t'.isCompleted pc = true := by
  unfold ChunkTracker.markChunkDownloaded at h
  rcases hp : t.pieces.get? pc with _ | p
  · simp only [hp] at h
    simp at h
  · simp only [hp] at h
    rcases hc : p.chunks.get? ck with _ | ch
    · simp only [hc] at h
      simp at h
    · simp only [hc] at h
      by_cases hcmp : p.completed = true
      · rw [if_pos hcmp] at h
        injection h with h1 h2
        cases h2
      · rw [if_neg hcmp] at h
        by_cases hcmp' : CtPiece.completed
            { p with chunks := p.chunks.set ck { ch with downloaded := true } } = true
        · rw [if_pos hcmp'] at h
          injection h with h1 h2
          unfold ChunkTracker.isCompleted
          rw [← h1]
          dsimp only
          rw [List.get?_set_eq_of_lt _ (get?_lt_of_eq_some hp)]
          exact hcmp'
        · rw [if_neg hcmp'] at h
          injection h with h1 h2
          cases h2

theorem markPieceBroken_length (t : ChunkTracker) (p : Nat) :
    (t.markPieceBroken p).pieces.length = t.pieces.length := by
  unfold ChunkTracker.markPieceBroken
  rcases hp : t.pieces.get? p with _ | q
  · rfl
  · simp

theorem reservedCt_markPieceDownloaded (t : ChunkTracker) (p i : Nat) :
    (t.markPieceDownloaded p).reservedCt i = t.reservedCt i := by
  unfold ChunkTracker.markPieceDownloaded
  rcases hp : t.pieces.get? p with _ | q
  · rfl
  · by_cases hip : i = p
    · subst hip
      unfold ChunkTracker.reservedCt ChunkTracker.needed ChunkTracker.isCompleted
      rw [List.get?_set_eq_of_lt _ (get?_lt_of_eq_some hp), hp]
      dsimp only
      rw [List.length_set]
      rfl
    · exact reservedCt_congr t _ i (by simp)
        (List.get?_set_ne _ _ (fun he => hip he.symm))

theorem reservedCt_markPieceBroken_imp (t : ChunkTracker) (p i : Nat)
    (h : (t.markPieceBroken p).reservedCt i = true) : t.reservedCt i = true := by
  by_cases hip : i = p
  · subst hip
    unfold ChunkTracker.markPieceBroken at h
    rcases hp : t.pieces.get? i with _ | q
    · rw [hp] at h
      exact h
    · rw [hp] at h
      have hn : (ChunkTracker.mk (t.pieces.set i
          { queued := true, verified := false,
            chunks := q.chunks.map (fun c => { c with downloaded := false }) })).needed i
          = true := by
        unfold ChunkTracker.needed
        simp [List.getElem?_set_eq_of_lt _ (get?_lt_of_eq_some hp)]
      rw [reservedCt_false_of_needed _ i hn] at h
      cases h
  · rw [reservedCt_congr t (t.markPieceBroken p) i (markPieceBroken_length t p)
      (markPieceBroken_get?_ne t p i hip)] at h
    exact h

theorem reservedCt_cancel_imp (t : ChunkTracker) (pc ck i : Nat)
    (h : (t.markChunkRequestCancelled pc ck).reservedCt i = true) :
    t.reservedCt i = true := by
  unfold ChunkTracker.markChunkRequestCancelled at h
  rcases hp : t.pieces.get? pc with _ | p
  · simp only [hp] at h
    exact h
  · simp only [hp] at h
    by_cases hcmp : p.completed = true
    · rw [if_pos hcmp] at h
      exact h
    · rw [if_neg hcmp] at h
      by_cases hip : i = pc
      · subst hip
        have hn : (ChunkTracker.mk (t.pieces.set i { p with queued := true })).needed i
            = true := by
          unfold ChunkTracker.needed
          simp [List.getElem?_set_eq_of_lt _ (get?_lt_of_eq_some hp)]
        rw [reservedCt_false_of_needed _ i hn] at h
        cases h
      · rw [reservedCt_congr t _ i (by simp)
          (List.get?_set_ne _ _ (fun he => hip he.symm))] at h
        exact h

theorem reservedCt_foldCancel_imp (reqs : List InflightRequest) :
    ∀ (t : ChunkTracker) (i : Nat),
      (reqs.foldl (fun acc r => acc.markChunkRequestCancelled r.piece r.chunk) t).reservedCt i
        = true →
      t.reservedCt i = true := by
  induction reqs with
  | nil =>
    intro t i h
    exact h
  | cons r reqs ih =>
    intro t i h
    rw [List.foldl_cons] at h
    exact reservedCt_cancel_imp t r.piece r.chunk i (ih _ i h)

theorem inv_init (t : ChunkTracker) (h : t.freshOk = true) (i : Nat)
    (hres : ledgerReserved (initialLocked t) i = true) :
    (ipLookup (initialLocked t).inflight_pieces i).isSome = true := by
  exfalso
  unfold ledgerReserved initialLocked at hres
  dsimp only at hres
  obtain ⟨p, hp, hq, hc⟩ := reservedCt_spec t i hres
  unfold ChunkTracker.freshOk at h
  rw [List.all_eq_true] at h
  have hor := h p (List.get?_mem hp)
  rw [Bool.or_eq_true] at hor
  rcases hor with h1 | h1
  · rw [hq] at h1
    cases h1
  · rw [hc] at h1
    cases h1

theorem inv_reserve (choked : Bool) (bf : List Bool) (self : Addr) (now : Nat)
    (g : TorrentStateLocked)
    (hg : ∀ i, ledgerReserved g i = true →
      (ipLookup g.inflight_pieces i).isSome = true) (i : Nat)
    (hres : ledgerReserved (reserveNextNeededPiece choked bf self now g).1 i = true) :
    (ipLookup (reserveNextNeededPiece choked bf self now g).1.inflight_pieces i).isSome
      = true := by
  unfold reserveNextNeededPiece at hres ⊢
  cases choked with
  | true =>
    rw [if_pos rfl] at hres ⊢
    exact hg i hres
  | false =>
    rw [if_neg (by decide)] at hres ⊢
    rcases hch : g.chunks with _ | t
    · simp only [hch] at hres ⊢
      exact hg i hres
    · simp only [hch] at hres ⊢
      rcases hh : (t.iterNeededPieces.filter (fun n => bf.get? n = some true)).head?
        with _ | n
      · simp only [hh] at hres ⊢
        exact hg i hres
      · simp only [hh] at hres ⊢
        by_cases hin : i = n
        · subst hin
          rw [ipLookup_insert_self]
          rfl
        · rw [ipLookup_insert_ne _ _ _ _ hin]
          apply hg
          unfold ledgerReserved at hres ⊢
          dsimp only at hres
          rw [hch]
          show t.reservedCt i = true
          rw [← reservedCt_congr t (t.reserveNeededPiece n) i
            (reserveNeededPiece_length t n) (reserveNeededPiece_get?_ne t n i hin)]
          exact hres

theorem trySteal_state (self : Addr) (now : Nat) (stats : GlobalStats)
    (threshold : ℚ) (g : TorrentStateLocked) :
    (tryStealOldSlowPiece self now stats threshold g).1 = g ∨
    ∃ idx, (tryStealOldSlowPiece self now stats threshold g).1 =
      { g with inflight_pieces :=
          ipOverwrite g.inflight_pieces idx { peer := self, started := now } } := by
  unfold tryStealOldSlowPiece
  split
  · exact Or.inl rfl
  · split
    · exact Or.inl rfl
    · split
      · exact Or.inl rfl
      · split
        · exact Or.inr ⟨_, rfl⟩
        · exact Or.inl rfl

theorem inv_steal (self : Addr) (now : Nat) (stats : GlobalStats) (threshold : ℚ)
    (g : TorrentStateLocked)
    (hg : ∀ i, ledgerReserved g i = true →
      (ipLookup g.inflight_pieces i).isSome = true) (i : Nat)
    (hres : ledgerReserved (tryStealOldSlowPiece self now stats threshold g).1 i = true) :
    (ipLookup (tryStealOldSlowPiece self now stats threshold g).1.inflight_pieces i).isSome
      = true := by
  rcases trySteal_state self now stats threshold g with hst | ⟨idx, hst⟩
  · rw [hst] at hres ⊢
    exact hg i hres
  · rw [hst] at hres ⊢
    have hres' : ledgerReserved g i = true := by
      unfold ledgerReserved at hres ⊢
      dsimp only at hres
      exact hres
    have hsome := hg i hres'
    dsimp only
    by_cases hik : i = idx
    · subst hik
      rw [ipLookup_overwrite_self_isSome]
      exact hsome
    · rw [ipLookup_overwrite_ne _ _ _ _ hik]
      exact hsome

theorem inv_recv (self : Addr) (now pc ck : Nat) (g : TorrentStateLocked)
    (hg : ∀ i, ledgerReserved g i = true →
      (ipLookup g.inflight_pieces i).isSome = true) (i : Nat)
    (hres : ledgerReserved (lockedRecv self now pc ck g).1 i = true) :
    (ipLookup (lockedRecv self now pc ck g).1.inflight_pieces i).isSome = true := by
  unfold lockedRecv at hres ⊢
  rcases hl : ipLookup g.inflight_pieces pc with _ | ip
  · simp only [hl] at hres ⊢
    exact hg i hres
  · simp only [hl] at hres ⊢
    by_cases hps : ip.peer = self
    · rw [if_pos hps] at hres ⊢
      rcases hch : g.chunks with _ | t
      · simp only [hch] at hres ⊢
        exact hg i hres
      · simp only [hch] at hres ⊢
        rcases hmk : t.markChunkDownloaded pc ck with ⟨t', r⟩
        have hlen : t'.pieces.length = t.pieces.length := by
          have hx := markChunkDownloaded_fst_length t pc ck
          rw [hmk] at hx
          exact hx
        cases r with
        | none =>
          simp only [hmk] at hres ⊢
          exact hg i hres
        | some cmr =>
          cases cmr with
          | previouslyCompleted =>
            simp only [hmk] at hres ⊢
            by_cases hipc : i = pc
            · subst hipc
              rw [hl]
              rfl
            · apply hg
              unfold ledgerReserved at hres ⊢
              dsimp only at hres
              rw [hch]
              show t.reservedCt i = true
              have hget : t'.pieces.get? i = t.pieces.get? i := by
                have hx := markChunkDownloaded_fst_get?_ne t pc ck i hipc
                rw [hmk] at hx
                exact hx
              rw [← reservedCt_congr t t' i hlen hget]
              exact hres
          | notCompleted =>
            simp only [hmk] at hres ⊢
            by_cases hipc : i = pc
            · subst hipc
              rw [hl]
              rfl
            · apply hg
              unfold ledgerReserved at hres ⊢
              dsimp only at hres
              rw [hch]
              show t.reservedCt i = true
              have hget : t'.pieces.get? i = t.pieces.get? i := by
                have hx := markChunkDownloaded_fst_get?_ne t pc ck i hipc
                rw [hmk] at hx
                exact hx
              rw [← reservedCt_congr t t' i hlen hget]
              exact hres
          | completed =>
            simp only [hmk] at hres ⊢
            by_cases hipc : i = pc
            · subst hipc
              exfalso
              unfold ledgerReserved at hres
              dsimp only at hres
              rw [reservedCt_false_of_completed t' i
                (markChunkDownloaded_completed_isCompleted t i ck t' hmk)] at hres
              cases hres
            · rw [ipLookup_remove_ne _ _ _ hipc]
              apply hg
              unfold ledgerReserved at hres ⊢
              dsimp only at hres
              rw [hch]
              show t.reservedCt i = true
              have hget : t'.pieces.get? i = t.pieces.get? i := by
                have hx := markChunkDownloaded_fst_get?_ne t pc ck i hipc
                rw [hmk] at hx
                exact hx
              rw [← reservedCt_congr t t' i hlen hget]
              exact hres
    · rw [if_neg hps] at hres ⊢
      exact hg i hres

theorem inv_pieceDownloaded (g : TorrentStateLocked) (p : Nat)
    (hg : ∀ i, ledgerReserved g i = true →
      (ipLookup g.inflight_pieces i).isSome = true) (i : Nat)
    (hres : ledgerReserved
      { g with chunks := g.chunks.map (fun t => t.markPieceDownloaded p) } i = true) :
    (ipLookup g.inflight_pieces i).isSome = true := by
  apply hg
  unfold ledgerReserved at hres ⊢
  dsimp only at hres
  rcases hch : g.chunks with _ | t
  · rw [hch] at hres
    simp at hres
  · rw [hch] at hres
    dsimp only [Option.map] at hres
    rw [reservedCt_markPieceDownloaded] at hres
    exact hres

theorem inv_pieceBroken (g : TorrentStateLocked) (p : Nat)
    (hg : ∀ i, ledgerReserved g i = true →
      (ipLookup g.inflight_pieces i).isSome = true) (i : Nat)
    (hres : ledgerReserved
      { g with chunks := g.chunks.map (fun t => t.markPieceBroken p) } i = true) :
    (ipLookup g.inflight_pieces i).isSome = true := by
  apply hg
  unfold ledgerReserved at hres ⊢
  dsimp only at hres
  rcases hch : g.chunks with _ | t
  · rw [hch] at hres
    simp at hres
  · rw [hch] at hres
    dsimp only [Option.map] at hres
    exact reservedCt_markPieceBroken_imp t p i hres

theorem inv_cancelAll (g : TorrentStateLocked) (reqs : List InflightRequest)
    (hg : ∀ i, ledgerReserved g i = true →
      (ipLookup g.inflight_pieces i).isSome = true) (i : Nat)
    (hres : ledgerReserved
      { g with chunks := g.chunks.map (fun t =>
        reqs.foldl (fun acc r => acc.markChunkRequestCancelled r.piece r.chunk) t) } i
      = true) :
    (ipLookup g.inflight_pieces i).isSome = true := by
  apply hg
  unfold ledgerReserved at hres ⊢
  dsimp only at hres
  rcases hch : g.chunks with _ | t
  · rw [hch] at hres
    simp at hres
  · rw [hch] at hres
    dsimp only [Option.map] at hres
    exact reservedCt_foldCancel_imp reqs t i hres

theorem inv_fatal (g : TorrentStateLocked) (e : Nat) (sent : List Nat)
    (hg : ∀ i, ledgerReserved g i = true →
      (ipLookup g.inflight_pieces i).isSome = true) (i : Nat)
    (hres : ledgerReserved (onFatalError e g sent).1 i = true) :
    (ipLookup (onFatalError e g sent).1.inflight_pieces i).isSome = true := by
  unfold onFatalError at hres ⊢
  rcases hft : g.fatal_errors_tx with _ | u
  · simp only [hft] at hres ⊢
    exact hg i hres
  · simp only [hft] at hres ⊢
    apply hg
    unfold ledgerReserved at hres ⊢
    dsimp only at hres
    exact hres

theorem inv_paused (g : TorrentStateLocked) (files : List FileHandle)
    (hg : ∀ i, ledgerReserved g i = true →
      (ipLookup g.inflight_pieces i).isSome = true) (i : Nat)
    (hres : ledgerReserved (pause g files).1 i = true) :
    (ipLookup (pause g files).1.inflight_pieces i).isSome = true := by
  exfalso
  unfold pause at hres
  rcases hch : g.chunks with _ | t
  · simp only [hch] at hres
    unfold ledgerReserved at hres
    rw [hch] at hres
    simp at hres
  · simp only [hch] at hres
    unfold ledgerReserved at hres
    dsimp only at hres
    cases hres

/-- C1 (amended): in every ledger state reachable by the session's
operations, a piece the chunk tracker has reserved (neither needed nor
completed) has an entry in `inflight_pieces` - but not conversely: a stale
entry may outlive its reservation after peer-death cancellation.  Moreover
`reserve_next_needed_piece` inserts the `{peer, started}` entry and clears
the piece's needed bit in the tracker under one and the same write-lock
acquisition, and when the locked reception section reports the piece
`Completed` the `inflight_pieces` entry is removed under that same lock. -/
theorem c1_ledger_invariant_amended :
    (∀ g, Reach g → ∀ i, ledgerReserved g i = true →
      (ipLookup g.inflight_pieces i).isSome = true) ∧
    (∀ (choked : Bool) (bf : List Bool) (self : Addr) (now : Nat)
        (g g' : TorrentStateLocked) (n : Nat),
      reserveNextNeededPiece choked bf self now g = (g', Except.ok (some n)) →
      ipLookup g'.inflight_pieces n = some { peer := self, started := now } ∧
      ∃ t, g.chunks = some t ∧ g'.chunks = some (t.reserveNeededPiece n) ∧
        (t.reserveNeededPiece n).needed n = false) ∧
    (∀ (self : Addr) (now pc ck : Nat) (g g' : TorrentStateLocked) (e : Nat),
      lockedRecv self now pc ck g = (g', LockedRecvResult.completedNow e) →
      ipLookup g'.inflight_pieces pc = none) := by
  refine ⟨?_, ?_, ?_⟩
  · intro g hr
    induction hr with
    | init t h => exact inv_init t h
    | reserve g choked bf self now hg ih => exact inv_reserve choked bf self now g ih
    | steal g self now stats threshold hg ih => exact inv_steal self now stats threshold g ih
    | recv g self now piece chunk hg ih => exact inv_recv self now piece chunk g ih
    | pieceDownloaded g p hg ih => exact inv_pieceDownloaded g p ih
    | pieceBroken g p hg ih => exact inv_pieceBroken g p ih
    | cancelAll g reqs hg ih => exact inv_cancelAll g reqs ih
    | fatal g e sent hg ih => exact inv_fatal g e sent ih
    | paused g files hg ih => exact inv_paused g files ih
  · intro choked bf self now g g' n h
    unfold reserveNextNeededPiece at h
    cases choked with
    | true =>
      rw [if_pos rfl] at h
      injection h with h1 h2
      injection h2 with h3
      cases h3
    | false =>
      rw [if_neg (by decide)] at h
      rcases hch : g.chunks with _ | t
      · simp only [hch] at h
        injection h with h1 h2
        cases h2
      · simp only [hch] at h
        rcases hh : (t.iterNeededPieces.filter (fun n => bf.get? n = some true)).head?
          with _ | n0
        · simp only [hh] at h
          injection h with h1 h2
          cases h2
        · simp only [hh] at h
          injection h with h1 h2
          injection h2 with h3
          injection h3 with h4
          subst h4
          rw [← h1]
          dsimp only
          refine ⟨ipLookup_insert_self _ _ _, t, rfl, rfl,
            reserveNeededPiece_needed_self t n0⟩
  · intro self now pc ck g g' e h
    unfold lockedRecv at h
    rcases hl : ipLookup g.inflight_pieces pc with _ | ip
    · simp only [hl] at h
      injection h with h1 h2
      cases h2
    · simp only [hl] at h
      by_cases hps : ip.peer = self
      · rw [if_pos hps] at h
        rcases hch : g.chunks with _ | t
        · simp only [hch] at h
          injection h with h1 h2
          cases h2
        · simp only [hch] at h
          rcases hmk : t.markChunkDownloaded pc ck with ⟨t', r⟩
          cases r with
          | none =>
            simp only [hmk] at h
            injection h with h1 h2
            cases h2
          | some cmr =>
            cases cmr with
            | previouslyCompleted =>
              simp only [hmk] at h
              injection h with h1 h2
              cases h2
            | notCompleted =>
              simp only [hmk] at h
              injection h with h1 h2
              cases h2
            | completed =>
              simp only [hmk] at h
              injection h with h1 h2
              rw [← h1]
              dsimp only
              exact ipLookup_remove_self _ _
      · rw [if_neg hps] at h
        injection h with h1 h2
        cases h2

/-- C1 counterexample: the inflight-iff-reserved invariant fails on a
reachable ledger state.  Reserve piece 0 for peer 7, then run the
peer-death cancellation loop of `on_peer_died` for its single outstanding
chunk request: cancellation re-marks the piece needed in the tracker but
`on_peer_died` never touches `inflight_pieces`, so the state keeps the
entry for piece 0 while the tracker no longer has it reserved. -/
theorem c1_ledger_invariant_counterexample :
    Reach ⟨some ⟨[⟨true, false, [⟨false, 16384⟩]⟩]⟩, [(0, ⟨7, 3⟩)], some ()⟩ ∧
    (ipLookup ([(0, ⟨7, 3⟩)] : InflightMap) 0).isSome = true ∧
    ledgerReserved ⟨some ⟨[⟨true, false, [⟨false, 16384⟩]⟩]⟩, [(0, ⟨7, 3⟩)], some ()⟩ 0
      = false :=
  ⟨Reach.cancelAll _ [⟨0, 0⟩]
      (Reach.reserve _ false [true] 7 3
        (Reach.init ⟨[⟨true, false, [⟨false, 16384⟩]⟩]⟩ (by decide))),
    by decide, by decide⟩

theorem c1_ledger_invariant_amended_witness :
    (ipLookup (reserveNextNeededPiece false [true] 7 3
      (initialLocked ⟨[⟨true, false, [⟨false, 16384⟩]⟩]⟩)).1.inflight_pieces 0).isSome
      = true ∧
    ipLookup [(0, ⟨7, 3⟩)] 0 = some { peer := 7, started := 3 } ∧
    ipLookup ((lockedRecv 7 10 0 0
      ⟨some ⟨[⟨false, false, [⟨false, 16384⟩]⟩]⟩, [(0, ⟨7, 3⟩)], some ()⟩).1.inflight_pieces) 0
      = none :=
  ⟨c1_ledger_invariant_amended.1
      (reserveNextNeededPiece false [true] 7 3
        (initialLocked ⟨[⟨true, false, [⟨false, 16384⟩]⟩]⟩)).1
      (Reach.reserve (initialLocked ⟨[⟨true, false, [⟨false, 16384⟩]⟩]⟩) false [true] 7 3
        (Reach.init ⟨[⟨true, false, [⟨false, 16384⟩]⟩]⟩ (by decide)))
      0 (by decide),
    (c1_ledger_invariant_amended.2.1 false [true] 7 3
      (initialLocked ⟨[⟨true, false, [⟨false, 16384⟩]⟩]⟩)
      ⟨some ⟨[⟨false, false, [⟨false, 16384⟩]⟩]⟩, [(0, ⟨7, 3⟩)], some ()⟩ 0
      rfl).1,
    c1_ledger_invariant_amended.2.2 7 10 0 0
      ⟨some ⟨[⟨false, false, [⟨false, 16384⟩]⟩]⟩, [(0, ⟨7, 3⟩)], some ()⟩
      ⟨some ⟨[⟨false, false, [⟨true, 16384⟩]⟩]⟩, [], some ()⟩ 7 rfl⟩

end Rqbit
